import Mathlib

/-!
Shallow embedding of the memory/knowledge-graph subsystem of the
FINALMYCELIUM repository: the cosine similarity function and embedding
pipeline (`src/services/google.ts` / embeddings module), the vector store
(`src/services/vectorStore/index.ts`), the zustand memory store
(memory-store module: `addMemory`, `addConnection`, `getRelatedMemories`),
and the memory extraction service (`src/services/memory.ts`).

JavaScript numbers are modelled as real numbers; `Math.sqrt` is
`Real.sqrt`.  External effects (the embedding provider, the language
model, `localStorage`, `crypto.randomUUID`, `Date.now`) are passed as
explicit parameters describing the outcome of each external call.
Thrown exceptions / rejected promises are modelled with `Except`.
-/

namespace Mycelium

/-- Errors of the memory subsystem: a failed text embedding
(`generateEmbedding` rejection), a durable-storage (`localStorage`)
failure, a cosine-similarity dimension mismatch, and a failed
language-model call. -/
inductive MemErr where
  | embedFailed
  | storageFailed
  | dimMismatch
  | llmFailed
  deriving DecidableEq, Repr

/-- JavaScript `x || d` on a possibly-absent number: `undefined`, `null`
and `0` are falsy, so an absent value *and* the number `0` both give the
default. -/
noncomputable def jsOrReal (x : Option ℝ) (d : ℝ) : ℝ :=
  match x with
  | none => d
  | some v => if v = 0 then d else v

/-- JavaScript `s || d` on a possibly-absent string: `undefined` and the
empty string are falsy. -/
def jsOrStr (x : Option String) (d : String) : String :=
  match x with
  | none => d
  | some v => if v = "" then d else v

/-- JavaScript `n || d` on a possibly-absent number used as a timestamp:
`undefined` and `0` are falsy. -/
def jsOrNat (x : Option Nat) (d : Nat) : Nat :=
  match x with
  | none => d
  | some v => if v = 0 then d else v

/-- `cosineSimilarity` from the embeddings module: throws
(`DimensionMismatch`) when the vectors have different lengths; computes
the dot product and the two Euclidean norms in one loop; returns `0`
when either norm is zero; otherwise returns `dot / (normA * normB)`. -/
noncomputable def cosineSimilarity (a b : List ℝ) : Except MemErr ℝ :=
  if a.length ≠ b.length then
    .error .dimMismatch
  else
    let dotProduct := (List.zipWith (fun x y => x * y) a b).sum
    let normA := Real.sqrt ((a.map (fun x => x * x)).sum)
    let normB := Real.sqrt ((b.map (fun x => x * x)).sum)
    if normA = 0 ∨ normB = 0 then .ok 0
    else .ok (dotProduct / (normA * normB))

/-- Spec-side dot product `dot(a, b)`. -/
def specDot (a b : List ℝ) : ℝ := (List.zipWith (fun x y => x * y) a b).sum

/-- Spec-side Euclidean magnitude `‖a‖`. -/
noncomputable def magnitude (a : List ℝ) : ℝ :=
  Real.sqrt ((a.map (fun x => x * x)).sum)

end Mycelium

namespace Mycelium

lemma sumSq_nonneg (a : List ℝ) : 0 ≤ (a.map (fun x => x * x)).sum := by
  induction a with
  | nil => simp
  | cons x xs ih =>
    simp only [List.map_cons, List.sum_cons]
    have : (0 : ℝ) ≤ x * x := mul_self_nonneg x
    linarith

lemma sumSq_eq_zero_iff (a : List ℝ) :
    (a.map (fun x => x * x)).sum = 0 ↔ ∀ x ∈ a, x = 0 := by
  induction a with
  | nil => simp
  | cons x xs ih =>
    simp only [List.map_cons, List.sum_cons, List.mem_cons]
    constructor
    · intro h
      have hx : (0 : ℝ) ≤ x * x := mul_self_nonneg x
      have hs : (0 : ℝ) ≤ (xs.map (fun x => x * x)).sum := sumSq_nonneg xs
      have hx0 : x * x = 0 := by linarith
      have hxs : (xs.map (fun x => x * x)).sum = 0 := by linarith
      have hx' : x = 0 := by
        have := mul_self_eq_zero.mp hx0
        exact this
      refine fun y hy => ?_
      rcases hy with hy | hy
      · exact hy ▸ hx'
      · exact (ih.mp hxs) y hy
    · intro h
      have hx' : x = 0 := h x (Or.inl rfl)
      have hxs : (xs.map (fun x => x * x)).sum = 0 :=
        ih.mpr (fun y hy => h y (Or.inr hy))
      simp [hx', hxs]

lemma magnitude_eq_zero_iff (a : List ℝ) : magnitude a = 0 ↔ ∀ x ∈ a, x = 0 := by
  unfold magnitude
  rw [Real.sqrt_eq_zero (sumSq_nonneg a)]
  exact sumSq_eq_zero_iff a

/-- An outgoing edge of the knowledge graph (`Memory.connections[i]`):
directed, typed, weighted, owned by the source memory.  TypeScript union
types are erased at runtime, so `type` is a plain string. -/
structure Connection where
  type : String
  targetId : String
  strength : ℝ
  description : Option String

/-- `Memory.metadata`: optional workspace / thread / context keys, an
optional tag list, and the extra `timestamp` key that the extraction
pipeline writes into the metadata object (absent everywhere else). -/
structure MemMetadata where
  workspace : Option String
  thread : Option String
  context : Option String
  tags : Option (List String)
  timestamp : Option Nat

/-- The `Memory` domain record (types module). -/
structure Memory where
  id : String
  type : String
  content : String
  source : String
  timestamp : Nat
  confidence : ℝ
  connections : List Connection
  metadata : MemMetadata

/-- The metadata projection held by a `StoredMemory` in the vector
store. -/
structure StoredMeta where
  type : String
  source : String
  confidence : ℝ
  workspace : Option String
  thread : Option String
  timestamp : Nat
  tags : List String

/-- `StoredMemory`, the vector store's internal record: id, embedding,
metadata projection and content.  Connections are not stored. -/
structure StoredMemory where
  id : String
  embedding : List ℝ
  metadata : StoredMeta
  content : String

/-- A `findSimilarMemories` match: the reconstructed Memory-shaped
projection paired with its similarity score. -/
structure SimilarResult where
  memory : Memory
  similarity : ℝ

/-- Outcome of one embedding-provider call (`generateEmbedding`):
either the produced vector or a rejection. -/
abbrev Embedder := String → Except MemErr (List ℝ)

/-- Outcome of writing a collection to the durable-storage substrate
(`localStorage.setItem` wrapped in `JSON.stringify`). -/
abbrev Saver := List StoredMemory → Except MemErr Unit

/-- `VectorStore.saveToStorage`: the write to `localStorage` is wrapped
in `try/catch`; a failure is logged (`console.error`) and swallowed, so
the function returns normally whatever the substrate did. -/
def saveToStorage (save : Saver) (ms : List StoredMemory) : Unit :=
  match save ms with
  | .ok _ => ()
  | .error _ => ()

/-- `VectorStore.loadFromStorage`: reads the persisted collection;
a read or parse failure is caught and logged, leaving the collection
empty; a missing key also leaves it empty. -/
def loadFromStorage (stored : Except MemErr (Option (List StoredMemory))) :
    List StoredMemory :=
  match stored with
  | .error _ => []
  | .ok none => []
  | .ok (some ms) => ms

/-- The `StoredMemory` built by `VectorStore.addMemory` from a `Memory`
and its freshly computed embedding. -/
def storedOf (m : Memory) (embedding : List ℝ) : StoredMemory :=
  { id := m.id
    embedding := embedding
    metadata :=
      { type := m.type
        source := m.source
        confidence := m.confidence
        workspace := m.metadata.workspace
        thread := m.metadata.thread
        timestamp := m.timestamp
        tags := m.metadata.tags.getD [] }
    content := m.content }

/-- The upsert step of `VectorStore.addMemory`: replace the record at
the index found by `findIndex` when present, append otherwise. -/
def upsertById (ms : List StoredMemory) (sm : StoredMemory) : List StoredMemory :=
  match ms.findIdx? (fun m => m.id = sm.id) with
  | some i => ms.set i sm
  | none => ms ++ [sm]

namespace VectorStore

/-- `VectorStore.addMemory` (the spec's `upsert`): embed the content —
a rejection is re-thrown by the `catch` block with the collection
untouched — then insert or replace by id and persist (the persistence
outcome being swallowed by `saveToStorage`).  Returns the operation
outcome together with the in-memory collection afterwards. -/
def addMemory (embed : Embedder) (save : Saver) (ms : List StoredMemory)
    (m : Memory) : Except MemErr Unit × List StoredMemory :=
  match embed m.content with
  | .error e => (.error e, ms)
  | .ok embedding =>
    let ms' := upsertById ms (storedOf m embedding)
    let _ := saveToStorage save ms'
    (.ok (), ms')

/-- `VectorStore.deleteMemory`: filter the id out and persist;
never fails. -/
def deleteMemory (save : Saver) (ms : List StoredMemory) (id : String) :
    Except MemErr Unit × List StoredMemory :=
  let ms' := ms.filter (fun m => ¬ m.id = id)
  let _ := saveToStorage save ms'
  (.ok (), ms')

/-- `VectorStore.clear`: drop everything and persist; never fails. -/
def clear (save : Saver) (_ms : List StoredMemory) :
    Except MemErr Unit × List StoredMemory :=
  let ms' : List StoredMemory := []
  let _ := saveToStorage save ms'
  (.ok (), ms')

end VectorStore

/-- The Memory-shaped projection reconstructed by `findSimilarMemories`
from a stored record: connections empty (the vector store does not own
graph data), metadata restricted to workspace / thread / tags. -/
def projectStored (sm : StoredMemory) : Memory :=
  { id := sm.id
    content := sm.content
    type := sm.metadata.type
    source := sm.metadata.source
    confidence := sm.metadata.confidence
    timestamp := sm.metadata.timestamp
    connections := []
    metadata :=
      { workspace := sm.metadata.workspace
        thread := sm.metadata.thread
        context := none
        tags := some sm.metadata.tags
        timestamp := none } }

/-- The `this.memories.map(... cosineSimilarity ...)` step: similarity
of the query embedding against every stored vector, evaluated
sequentially; the first thrown `DimensionMismatch` aborts the map. -/
noncomputable def scoreAll (q : List ℝ) :
    List StoredMemory → Except MemErr (List (StoredMemory × ℝ))
  | [] => .ok []
  | sm :: rest =>
    match cosineSimilarity q sm.embedding with
    | .error e => .error e
    | .ok s =>
      match scoreAll q rest with
      | .error e => .error e
      | .ok tail => .ok ((sm, s) :: tail)

/-- The comparator `(a, b) => b.score - a.score` of the JavaScript
stable sort, as the total preorder it induces on score-annotated pairs:
`a` may come before `b` exactly when `a`'s score is at least `b`'s. -/
def sndGE {α : Type} (a b : α × ℝ) : Prop := b.2 ≤ a.2

noncomputable instance {α : Type} : DecidableRel (@sndGE α) := fun a b => by
  unfold sndGE; infer_instance

instance {α : Type} : IsTotal (α × ℝ) (@sndGE α) :=
  ⟨fun a b => le_total b.2 a.2⟩

instance {α : Type} : IsTrans (α × ℝ) (@sndGE α) :=
  ⟨fun _ _ _ h1 h2 => le_trans h2 h1⟩

/-- Abbreviation used below for the `findSimilarMemories` sort. -/
abbrev simGE : StoredMemory × ℝ → StoredMemory × ℝ → Prop := sndGE

namespace VectorStore

/-- `VectorStore.findSimilarMemories`: embed the query, score every
stored vector, keep scores at or above `minSimilarity`, sort descending
by similarity (stable, so ties keep insertion order), truncate to
`limit` and project each match.  The whole body sits in a `try/catch`
whose handler returns `[]`, so an embedding failure or a dimension
mismatch yields a *normal* empty result, never an error. -/
noncomputable def findSimilarMemories (embed : Embedder)
    (ms : List StoredMemory) (content : String)
    (limit : Nat := 5) (minSimilarity : ℝ := 0.7) :
    Except MemErr (List SimilarResult) :=
  match embed content with
  | .error _ => .ok []
  | .ok q =>
    match scoreAll q ms with
    | .error _ => .ok []
    | .ok scored =>
      .ok ((((scored.filter (fun p => minSimilarity ≤ p.2)).insertionSort
          simGE).take limit).map
        (fun p => { memory := projectStored p.1, similarity := p.2 }))

end VectorStore

/-! ## The zustand memory store (memory-store module) -/

/-- JavaScript `Map.set` on a string-keyed association list: replace
the value in place when the key is present (keeping its position),
append otherwise. -/
def jsMapSet {β : Type} : List (String × β) → String → β → List (String × β)
  | [], k, v => [(k, v)]
  | (k', v') :: rest, k, v =>
    if k' = k then (k, v) :: rest else (k', v') :: jsMapSet rest k v

/-- JavaScript `Map.get`. -/
def jsMapGet {β : Type} (m : List (String × β)) (k : String) : Option β :=
  (m.find? (fun p => p.1 = k)).map (fun p => p.2)

/-- A JavaScript `Map` built by inserting a list of key-value pairs in
order (`new Map(pairs)`): first occurrence fixes the position of a key,
last occurrence fixes its value. -/
def jsMapOfList {β : Type} (l : List (String × β)) : List (String × β) :=
  l.foldl (fun m p => jsMapSet m p.1 p.2) []

/-- JavaScript `Set.add` on a string list: append when absent. -/
def jsSetAdd (s : List String) (x : String) : List String :=
  if s.contains x then s else s ++ [x]

/-- `Partial<Memory> & { content, type }`: the argument of the memory
store's `addMemory` action; the defaulted fields are optional. -/
structure AddMemoryInput where
  id : Option String
  type : String
  content : String
  source : String
  timestamp : Option Nat
  confidence : Option ℝ
  connections : Option (List Connection)
  metadata : MemMetadata

/-- The `newMemory` object built by the memory store's `addMemory`:
each defaulted field uses the JavaScript `||` (falsy) operator, and the
tag list defaults to `[]`. -/
noncomputable def newMemoryOf (input : AddMemoryInput) (uuid : String)
    (now : Nat) : Memory :=
  { id := jsOrStr input.id uuid
    type := input.type
    content := input.content
    source := input.source
    timestamp := jsOrNat input.timestamp now
    confidence := jsOrReal input.confidence 1
    connections := input.connections.getD []
    metadata := { input.metadata with tags := some (input.metadata.tags.getD []) } }

/-- The comparator `(a, b) => b.timestamp - a.timestamp` of the memory
list's stable sort (newest first). -/
def tsGE (a b : Memory) : Prop := b.timestamp ≤ a.timestamp

instance : DecidableRel tsGE := fun a b => by unfold tsGE; infer_instance

instance : IsTotal Memory tsGE := ⟨fun a b => le_total b.timestamp a.timestamp⟩

instance : IsTrans Memory tsGE := ⟨fun _ _ _ h1 h2 => le_trans h2 h1⟩

namespace MemoryStore

/-- The memory store's `addMemory` action: build `newMemory` with the
defaults applied, add it to the vector store first (a rejection there
aborts the action before the local state is touched), then replace any
memory with the same id and re-sort the list newest-first. -/
noncomputable def addMemory (embed : Embedder) (save : Saver)
    (mst : List Memory) (vst : List StoredMemory) (input : AddMemoryInput)
    (uuid : String) (now : Nat) :
    Except MemErr Unit × (List Memory × List StoredMemory) :=
  let newMemory := newMemoryOf input uuid now
  match VectorStore.addMemory embed save vst newMemory with
  | (.error e, vst') => (.error e, (mst, vst'))
  | (.ok _, vst') =>
    let filteredMemories :=
      if newMemory.id = "" then mst
      else mst.filter (fun m => ¬ m.id = newMemory.id)
    (.ok (), ((filteredMemories ++ [newMemory]).insertionSort tsGE, vst'))

/-- The connection-list update of `addConnection`: replace the
existing connection at the index found by `findIndex` when present
(keeping its position), append otherwise. -/
def upsertConn (conns : List Connection) (nc : Connection) : List Connection :=
  match conns.findIdx? (fun c => c.targetId = nc.targetId) with
  | some i => conns.set i nc
  | none => conns ++ [nc]

/-- The memory store's `addConnection` action: on the source memory,
replace the existing connection to `targetId` in place when there is
one, append otherwise; all other memories are untouched. -/
def addConnection (mst : List Memory) (sourceId targetId type : String)
    (strength : ℝ) (description : Option String) : List Memory :=
  mst.map (fun memory =>
    if memory.id = sourceId then
      { memory with
        connections := upsertConn memory.connections
          { type := type, targetId := targetId, strength := strength
            description := description } }
    else memory)

/-- The two accumulator structures of `getRelatedMemories`
(`relatedIds` and `relationStrengths`) after the two discovery passes:
first over the target's outgoing connections, then over every memory's
connections looking for edges pointing back at the target. -/
noncomputable def relatedFold (mst : List Memory) (target : Memory)
    (id : String) : List String × List (String × ℝ) :=
  let init := target.connections.foldl
    (fun p c => (jsSetAdd p.1 c.targetId, jsMapSet p.2 c.targetId c.strength))
    ([], [])
  mst.foldl (fun p memory =>
    memory.connections.foldl (fun q conn =>
      if conn.targetId = id then
        (jsSetAdd q.1 memory.id,
         jsMapSet q.2 memory.id
           (max conn.strength (jsOrReal (jsMapGet q.2 memory.id) 0)))
      else q) p) init

/-- The semantic-match map of `getRelatedMemories`
(`new Map(similarMemories.map(m => [m.memory.id, m]))`). -/
def semMapOf (sem : List SimilarResult) : List (String × SimilarResult) :=
  jsMapOfList (sem.map (fun r => (r.memory.id, r)))

/-- The scored union of `getRelatedMemories` (`allRelatedMemories`
before the sort): each discovered id that resolves in the memory
collection, paired with `max(explicit strength, semantic strength)`,
where an unresolvable id is dropped. -/
noncomputable def relatedScored (mst : List Memory) (sem : List SimilarResult)
    (target : Memory) (id : String) : List (Memory × ℝ) :=
  let p := relatedFold mst target id
  let semMap := semMapOf sem
  p.1.filterMap (fun relatedId =>
    match mst.find? (fun m => m.id = relatedId) with
    | none => none
    | some memory =>
      let explicitStrength := jsOrReal (jsMapGet p.2 relatedId) 0
      let semanticStrength :=
        match jsMapGet semMap relatedId with
        | some r => r.similarity
        | none => 0
      some (memory, max explicitStrength semanticStrength))

/-- The explicitly-ranked prefix of the `getRelatedMemories` result:
the scored union sorted descending by combined strength (stable). -/
noncomputable def relatedRanked (mst : List Memory) (sem : List SimilarResult)
    (target : Memory) (id : String) : List Memory :=
  ((relatedScored mst sem target id).insertionSort sndGE).map (fun p => p.1)

/-- The appended suffix of the `getRelatedMemories` result: iterate the
semantic-match map in insertion order and push every match whose id was
not discovered by the explicit-edge passes. -/
noncomputable def relatedAppended (mst : List Memory) (sem : List SimilarResult)
    (target : Memory) (id : String) : List Memory :=
  let p := relatedFold mst target id
  (semMapOf sem).foldl
    (fun acc q => if p.1.contains q.1 then acc else acc ++ [q.2.memory]) []

/-- The memory store's `getRelatedMemories` action (the spec's
`findRelated`): look the target up (absent ⇒ `[]`), query the vector
store for semantic matches on the target's content (default limit and
similarity floor), rank the explicit union, then append the
semantic-only matches. -/
noncomputable def getRelatedMemories (embed : Embedder)
    (vst : List StoredMemory) (mst : List Memory) (id : String) :
    Except MemErr (List Memory) :=
  match mst.find? (fun m => m.id = id) with
  | none => .ok []
  | some target =>
    match VectorStore.findSimilarMemories embed vst target.content with
    | .error e => .error e
    | .ok sem =>
      .ok (relatedRanked mst sem target id ++ relatedAppended mst sem target id)

end MemoryStore

/-! ## The memory extraction service (`MemoryService`) -/

/-- A connection proposal in the language model's JSON response: the
target is named by descriptive content, not by id. -/
structure PayloadConn where
  type : String
  targetContent : String
  strength : ℝ
  description : Option String

/-- The optional `metadata` object of a memory proposal. -/
structure PayloadMeta where
  context : Option String
  tags : Option (List String)

/-- A memory proposal in the language model's JSON response. -/
structure PayloadMemory where
  type : String
  content : String
  confidence : Option ℝ
  connections : List PayloadConn
  metadata : Option PayloadMeta

/-- The parsed language-model response (`{ memories: [...] }`). -/
structure ExtractPayload where
  memories : List PayloadMemory

/-- The records built and returned by `extractMemories`
(`Omit<Memory, 'id' | 'timestamp'>` in the source): at runtime these
objects carry no `id` and no `timestamp` property, modelled here as
optional fields that the builder leaves absent. -/
structure CandidateMemory where
  id : Option String
  type : String
  content : String
  source : String
  timestamp : Option Nat
  confidence : ℝ
  connections : List Connection
  metadata : MemMetadata

/-- Whether `needle` occurs as a contiguous substring of `hay`
(JavaScript `String.includes`), on character lists. -/
def charsInclude (needle : List Char) : List Char → Bool
  | [] => needle.isEmpty
  | c :: rest => needle.isPrefixOf (c :: rest) || charsInclude needle rest

/-- JavaScript `hay.includes(needle)`. -/
def jsIncludes (hay needle : String) : Bool :=
  charsInclude needle.toList hay.toList

/-- Resolve one proposed connection: case-insensitive substring match
of `targetContent` against the candidate context memories' content;
no match ⇒ the connection is dropped (`null`, filtered out). -/
def resolveConnection (relevantMemories : List Memory) (conn : PayloadConn) :
    Option Connection :=
  match relevantMemories.find?
      (fun m => jsIncludes m.content.toLower conn.targetContent.toLower) with
  | some targetMemory =>
    some { type := conn.type, targetId := targetMemory.id
           strength := conn.strength, description := conn.description }
  | none => none

/-- The candidate record built from one memory proposal: confidence
defaulted through `||`, source set to the first 100 characters of the
conversation plus an ellipsis, connections resolved by content match,
metadata spread with a fresh `timestamp` key and a defaulted tag list.
No id and no timestamp are assigned here. -/
noncomputable def buildCandidate (conversation : String)
    (relevantMemories : List Memory) (now : Nat) (em : PayloadMemory) :
    CandidateMemory :=
  { id := none
    timestamp := none
    type := em.type
    content := em.content
    confidence := jsOrReal em.confidence 1
    source := conversation.take 100 ++ "..."
    connections := em.connections.filterMap (resolveConnection relevantMemories)
    metadata :=
      { workspace := none
        thread := none
        context := em.metadata.bind (fun md => md.context)
        timestamp := some now
        tags := some ((em.metadata.bind (fun md => md.tags)).getD []) } }

/-- The `fullMemory` object persisted by the extraction loop: the
candidate spread together with a freshly generated id and the current
timestamp. -/
def withAssigned (c : CandidateMemory) (id : String) (ts : Nat) : Memory :=
  { id := id, type := c.type, content := c.content, source := c.source
    timestamp := ts, confidence := c.confidence
    connections := c.connections, metadata := c.metadata }

/-- The persistence loop of `extractMemories`: one vector-store
`addMemory` per candidate, in order, with a fresh id (`uuid k` for the
`k`-th call to `crypto.randomUUID`) and the current timestamp; the
first rejection aborts the loop (and is then caught by the enclosing
`catch`), keeping the upserts already performed. -/
noncomputable def persistLoop (embed : Embedder) (save : Saver)
    (vst : List StoredMemory) (k : Nat) (uuid : Nat → String) (now : Nat) :
    List CandidateMemory → Except MemErr Unit × List StoredMemory
  | [] => (.ok (), vst)
  | c :: rest =>
    match VectorStore.addMemory embed save vst (withAssigned c (uuid k) now) with
    | (.error e, vst') => (.error e, vst')
    | (.ok _, vst') => persistLoop embed save vst' (k + 1) uuid now rest

namespace MemoryService

/-- `MemoryService.extractMemories`: gather up to five similar memories
as context, ask the language model for a structured extraction, parse
it (a malformed response degrades to `[]`), build the candidate
records, persist each one through the vector store with a fresh id and
the current timestamp, and return the *candidate* list (the return type
is `Omit<Memory, 'id' | 'timestamp'>[]`).  A language-model failure or
an embedding failure during persistence is caught and degrades to `[]`
as well.  The final vector-store collection is returned alongside. -/
noncomputable def extractMemories (embed : Embedder) (save : Saver)
    (llm : String → Except MemErr String)
    (parse : String → Option ExtractPayload) (uuid : Nat → String) (now : Nat)
    (vst : List StoredMemory) (conversation : String)
    (existingMemories : List Memory := []) :
    List CandidateMemory × List StoredMemory :=
  match VectorStore.findSimilarMemories embed vst conversation 5 with
  | .error _ => ([], vst)
  | .ok similarMemories =>
    let relevantMemories :=
      existingMemories ++ similarMemories.map (fun r => r.memory)
    let memoryContext := String.intercalate "\n"
      (relevantMemories.map (fun m =>
        m.type.toUpper ++ ": " ++ m.content ++ " (ID: " ++ m.id ++ ")"))
    let prompt :=
      "Analyze this conversation and extract memories. " ++
      "Use existing memories to identify connections and enhance " ++
      "understanding.\n\nExisting Memories:\n" ++ memoryContext ++
      "\n\nNew Conversation:\n" ++ conversation
    match llm prompt with
    | .error _ => ([], vst)
    | .ok response =>
      match parse response with
      | none => ([], vst)
      | some parsed =>
        let memories :=
          parsed.memories.map (buildCandidate conversation relevantMemories now)
        match persistLoop embed save vst 0 uuid now memories with
        | (.error _, vst') => ([], vst')
        | (.ok _, vst') => (memories, vst')

end MemoryService

/-! ## Spec-side description of the `findRelated` ranking

These definitions follow the wording of the specification ("explicit
strength is the maximum of the strength of any outgoing edge from
target to candidate and of any outgoing edge from candidate to target",
"combined strength = max(explicit, semantic)", "union sorted once in
descending combined strength, semantic-only matches appended in
descending similarity order"), to be compared with the code-side
`MemoryStore.getRelatedMemories`. -/

/-- First-occurrence deduplication relative to an accumulator of ids
already seen. -/
def dedupFromSeen (seen : List String) : List String → List String
  | [] => []
  | x :: xs =>
    if seen.contains x then dedupFromSeen seen xs
    else x :: dedupFromSeen (seen ++ [x]) xs

/-- First-occurrence deduplication. -/
def dedupFirst (l : List String) : List String := dedupFromSeen [] l

/-- Maximum of a list of scores, `0` when empty. -/
noncomputable def listMax0 (l : List ℝ) : ℝ := l.foldr max 0

/-- Strengths of the target's outgoing edges to candidate `c`. -/
def specOutStrengths (target : Memory) (c : String) : List ℝ :=
  (target.connections.filter (fun conn => conn.targetId = c)).map
    (fun conn => conn.strength)

/-- Strengths of the outgoing edges from candidate `c` back to the
target id. -/
def specInStrengths (mst : List Memory) (id c : String) : List ℝ :=
  (mst.filter (fun m => m.id = c)).flatMap
    (fun m => (m.connections.filter (fun conn => conn.targetId = id)).map
      (fun conn => conn.strength))

/-- Spec-side explicit strength of candidate `c`: the maximum strength
of any edge between target and candidate, in either direction. -/
noncomputable def specExplicitStrength (mst : List Memory) (target : Memory)
    (id c : String) : ℝ :=
  listMax0 (specOutStrengths target c ++ specInStrengths mst id c)

/-- Spec-side semantic strength of candidate `c`: its similarity in the
`findSimilar` result, `0` when it does not appear there. -/
noncomputable def specSemanticStrength (sem : List SimilarResult) (c : String) : ℝ :=
  match sem.find? (fun r => r.memory.id = c) with
  | some r => r.similarity
  | none => 0

/-- Spec-side combined strength: `max(explicit, semantic)`. -/
noncomputable def specCombinedStrength (mst : List Memory) (sem : List SimilarResult)
    (target : Memory) (id c : String) : ℝ :=
  max (specExplicitStrength mst target id c) (specSemanticStrength sem c)

/-- Spec-side candidate ids found by the explicit signal, in discovery
order: targets of the target's outgoing edges first, then the ids of
memories holding an edge back to the target, first occurrences only. -/
def specExplicitIds (mst : List Memory) (target : Memory) (id : String) :
    List String :=
  dedupFirst (target.connections.map (fun conn => conn.targetId) ++
    (mst.filter (fun m => m.connections.any (fun conn => conn.targetId = id))).map
      (fun m => m.id))

/-- Whether candidate `c` has an explicit edge to or from the target. -/
def specHasExplicitEdge (mst : List Memory) (target : Memory) (id c : String) :
    Bool :=
  target.connections.any (fun conn => conn.targetId = c) ||
    mst.any (fun m => m.id == c && m.connections.any (fun conn => conn.targetId = id))

/-- The spec-side `findRelated` ranking: every explicit candidate that
resolves in the collection, scored with the combined strength and
stably sorted in descending order, followed by the semantic matches
that have no explicit edge in either direction, in descending
similarity order (the order of the `findSimilar` result). -/
noncomputable def findRelatedSpec (mst : List Memory) (sem : List SimilarResult)
    (target : Memory) (id : String) : List Memory :=
  let ranked :=
    (((specExplicitIds mst target id).filterMap (fun c =>
        (mst.find? (fun m => m.id = c)).map
          (fun m => (m, specCombinedStrength mst sem target id c)))).insertionSort
      sndGE).map (fun p => p.1)
  let extras :=
    (sem.filter (fun r => ! specHasExplicitEdge mst target id r.memory.id)).map
      (fun r => r.memory)
  ranked ++ extras

end Mycelium

namespace Mycelium

/-! ## C5: cosine similarity -/

lemma cosineSimilarity_eq_len (a b : List ℝ) (h : a.length = b.length) :
    cosineSimilarity a b =
      if magnitude a = 0 ∨ magnitude b = 0 then Except.ok 0
      else .ok (specDot a b / (magnitude a * magnitude b)) := by
  unfold cosineSimilarity magnitude specDot
  rw [if_neg (by simp [h])]

/-- C5: `cosineSimilarity` signals a dimension mismatch whenever the
lengths differ; for equal lengths it returns `0` when either vector has
zero magnitude (equivalently, is the zero vector), and
`dot(a,b) / (‖a‖ · ‖b‖)` otherwise. -/
theorem cosineSimilarity_spec (a b : List ℝ) :
    (a.length ≠ b.length → cosineSimilarity a b = .error .dimMismatch) ∧
    (a.length = b.length →
      (((∀ x ∈ a, x = 0) ∨ (∀ x ∈ b, x = 0)) → cosineSimilarity a b = .ok 0) ∧
      ((¬ ∀ x ∈ a, x = 0) → (¬ ∀ x ∈ b, x = 0) →
        cosineSimilarity a b = .ok (specDot a b / (magnitude a * magnitude b)))) := by
  refine ⟨fun h => ?_, fun h => ⟨fun h0 => ?_, fun ha hb => ?_⟩⟩
  · unfold cosineSimilarity
    rw [if_pos h]
  · rw [cosineSimilarity_eq_len a b h, if_pos]
    rcases h0 with h0 | h0
    · exact Or.inl ((magnitude_eq_zero_iff a).mpr h0)
    · exact Or.inr ((magnitude_eq_zero_iff b).mpr h0)
  · rw [cosineSimilarity_eq_len a b h, if_neg]
    rintro (h0 | h0)
    · exact ha ((magnitude_eq_zero_iff a).mp h0)
    · exact hb ((magnitude_eq_zero_iff b).mp h0)

/-- Witness for C5 at concrete vectors: a length mismatch, a zero
vector, and a plain pair. -/
theorem cosineSimilarity_spec_witness :
    cosineSimilarity [(1 : ℝ)] [1, 0] = .error .dimMismatch ∧
    cosineSimilarity [(0 : ℝ)] [1] = .ok 0 ∧
    cosineSimilarity [(1 : ℝ)] [1] =
      .ok (specDot [1] [1] / (magnitude [1] * magnitude [1])) :=
  ⟨(cosineSimilarity_spec _ _).1 (by simp),
   ((cosineSimilarity_spec _ _).2 (by simp)).1 (Or.inl (by simp)),
   ((cosineSimilarity_spec _ _).2 (by simp)).2 (by norm_num) (by norm_num)⟩

/-! ## C2: embedding failure during `findSimilar` -/

/-- An embedding provider whose calls all reject. -/
noncomputable def failingEmbed : Embedder := fun _ => .error .embedFailed

/-- A concrete stored record used by several counterexamples. -/
noncomputable def sampleStored : StoredMemory :=
  { id := "m1"
    embedding := [1]
    metadata :=
      { type := "fact", source := "s", confidence := 1, workspace := none
        thread := none, timestamp := 10, tags := [] }
    content := "sample content" }

/-- Counterexample for C2: with a failing embedder and a nonempty
store, `findSimilarMemories` resolves with the normal degraded result
`[]`; it does not surface any error. -/
theorem findSimilar_embed_error_not_surfaced :
    VectorStore.findSimilarMemories failingEmbed [sampleStored] "query" = .ok [] ∧
    ¬ ∃ e, VectorStore.findSimilarMemories failingEmbed [sampleStored] "query" =
      .error e := by
  have h : VectorStore.findSimilarMemories failingEmbed [sampleStored] "query" =
      .ok [] := rfl
  exact ⟨h, fun ⟨e, he⟩ => by rw [h] at he; exact Except.noConfusion he⟩

/-- C2 amended: an embedding failure during `findSimilar` is caught by
the surrounding `try/catch` and the call returns a normal empty result
list, for every store, query and parameter choice. -/
theorem findSimilar_embed_error_swallowed (embed : Embedder)
    (ms : List StoredMemory) (content : String) (limit : Nat)
    (minSimilarity : ℝ) (e : MemErr) (h : embed content = .error e) :
    VectorStore.findSimilarMemories embed ms content limit minSimilarity =
      .ok [] := by
  unfold VectorStore.findSimilarMemories
  rw [h]

/-- Witness for the amended C2 at a concrete failing embedder. -/
theorem findSimilar_embed_error_swallowed_witness :
    failingEmbed "query" = .error .embedFailed ∧
    VectorStore.findSimilarMemories failingEmbed [sampleStored] "query" 5 0.7 =
      .ok [] :=
  ⟨rfl, findSimilar_embed_error_swallowed failingEmbed [sampleStored] "query" 5
    0.7 .embedFailed rfl⟩

/-- A concrete memory record used by several witnesses. -/
noncomputable def sampleMemory : Memory :=
  { id := "m1", type := "fact", content := "sample content", source := "s"
    timestamp := 10, confidence := 1, connections := []
    metadata :=
      { workspace := none, thread := none, context := none, tags := some []
        timestamp := none } }

/-! ## C8: storage write failures -/

/-- A durable-storage substrate whose writes all fail. -/
def failingSave : Saver := fun _ => .error .storageFailed

/-- Counterexample for C8: a `deleteMemory` whose storage write fails
still reports success to its caller (the failure is swallowed inside
`saveToStorage`), contradicting "write failures propagate to the caller
of the mutating operation". -/
theorem delete_write_failure_not_propagated :
    failingSave [] = .error .storageFailed ∧
    VectorStore.deleteMemory failingSave [sampleStored] "m1" = (.ok (), []) := by
  refine ⟨rfl, ?_⟩
  simp [VectorStore.deleteMemory, sampleStored]

/-- C8 amended: for every mutating vector-store operation the storage
write outcome is swallowed (`saveToStorage` catches and logs), so
`upsert`, `delete` and `clear` report success regardless of the write
result; only read failures at load time degrade to an empty
collection. -/
theorem write_failures_swallowed_load_fails_open (save : Saver)
    (ms : List StoredMemory) (id : String) (m : Memory) (embed : Embedder)
    (q : List ℝ) (h : embed m.content = .ok q) :
    (VectorStore.addMemory embed save ms m).1 = .ok () ∧
    (VectorStore.deleteMemory save ms id).1 = .ok () ∧
    (VectorStore.clear save ms).1 = .ok () ∧
    (∀ e, loadFromStorage (.error e) = []) ∧
    loadFromStorage (.ok none) = [] := by
  refine ⟨?_, rfl, rfl, fun _ => rfl, rfl⟩
  unfold VectorStore.addMemory
  rw [h]

/-- Witness for the amended C8 at a failing substrate and trivially
succeeding embedder. -/
theorem write_failures_swallowed_witness :
    ((fun _ => Except.ok [(1 : ℝ)]) : Embedder) "sample content" = .ok [1] ∧
    (VectorStore.addMemory (fun _ => .ok [1]) failingSave [] sampleMemory).1 =
      .ok () ∧
    (VectorStore.deleteMemory failingSave [] "x").1 = .ok () ∧
    (VectorStore.clear failingSave []).1 = .ok () :=
  have h := write_failures_swallowed_load_fails_open failingSave []
    "x" sampleMemory (fun _ => .ok [1]) [1] rfl
  ⟨rfl, h.1, h.2.1, h.2.2.1⟩

/-- A concrete `addMemory` input used by witnesses. -/
noncomputable def sampleInput : AddMemoryInput :=
  { id := some "m2", type := "fact", content := "sample content", source := "s"
    timestamp := some 4, confidence := some 0.5, connections := some []
    metadata :=
      { workspace := none, thread := none, context := none, tags := some []
        timestamp := none } }

/-! ## C3: atomicity of `upsert` under embedding failure -/

/-- C3: when embedding the content fails, `VectorStore.addMemory`
propagates the error and leaves the collection untouched (no stored
vector added, replaced or removed), and the memory store's composite
`addMemory` — which awaits the vector store before touching its own
state — likewise propagates the error with both collections unchanged,
so no memory-without-vector or vector-without-memory state arises. -/
theorem upsert_embed_failure_atomic :
    (∀ (embed : Embedder) (save : Saver) (vst : List StoredMemory) (m : Memory)
      (e : MemErr), embed m.content = .error e →
        VectorStore.addMemory embed save vst m = (.error e, vst)) ∧
    (∀ (embed : Embedder) (save : Saver) (mst : List Memory)
      (vst : List StoredMemory) (input : AddMemoryInput) (uuid : String)
      (now : Nat) (e : MemErr), embed input.content = .error e →
        MemoryStore.addMemory embed save mst vst input uuid now =
          (.error e, (mst, vst))) := by
  have hv : ∀ (embed : Embedder) (save : Saver) (vst : List StoredMemory)
      (m : Memory) (e : MemErr), embed m.content = .error e →
      VectorStore.addMemory embed save vst m = (.error e, vst) := by
    intro embed save vst m e h
    unfold VectorStore.addMemory
    rw [h]
  refine ⟨hv, fun embed save mst vst input uuid now e h => ?_⟩
  have hc : (newMemoryOf input uuid now).content = input.content := rfl
  have hvv := hv embed save vst (newMemoryOf input uuid now) e (by rw [hc, h])
  simp only [MemoryStore.addMemory, hvv]

/-- Witness for C3: a concrete failing embedder, store states and
memory. -/
theorem upsert_embed_failure_atomic_witness :
    failingEmbed "sample content" = .error .embedFailed ∧
    VectorStore.addMemory failingEmbed failingSave [sampleStored] sampleMemory =
      (.error .embedFailed, [sampleStored]) ∧
    MemoryStore.addMemory failingEmbed failingSave [sampleMemory] [sampleStored]
      sampleInput "u1" 3 = (.error .embedFailed, ([sampleMemory], [sampleStored])) :=
  ⟨rfl,
   upsert_embed_failure_atomic.1 failingEmbed failingSave [sampleStored]
     sampleMemory .embedFailed rfl,
   upsert_embed_failure_atomic.2 failingEmbed failingSave [sampleMemory]
     [sampleStored] sampleInput "u1" 3 .embedFailed rfl⟩

/-! ## C7: `addConnection` upserts a single edge -/

lemma MemoryStore.upsertConn_cons_ne (c : Connection) (rest : List Connection)
    (nc : Connection) (h : ¬ c.targetId = nc.targetId) :
    MemoryStore.upsertConn (c :: rest) nc = c :: MemoryStore.upsertConn rest nc := by
  unfold MemoryStore.upsertConn
  rw [List.findIdx?_cons, if_neg (by simpa using h), List.findIdx?_succ]
  cases hfind : rest.findIdx? (fun x => decide (x.targetId = nc.targetId)) 0 with
  | none => simp [hfind]
  | some i => simp [hfind]

lemma MemoryStore.upsertConn_map_targetId (conns : List Connection) (nc : Connection) :
    (MemoryStore.upsertConn conns nc).map (fun c => c.targetId) =
      if conns.any (fun c => c.targetId = nc.targetId) then
        conns.map (fun c => c.targetId)
      else conns.map (fun c => c.targetId) ++ [nc.targetId] := by
  induction conns with
  | nil => simp [MemoryStore.upsertConn]
  | cons c rest ih =>
    by_cases hc : c.targetId = nc.targetId
    · have : MemoryStore.upsertConn (c :: rest) nc = nc :: rest := by
        unfold MemoryStore.upsertConn
        rw [List.findIdx?_cons]
        simp [hc]
      rw [this]
      simp [List.any_cons, hc]
    · rw [MemoryStore.upsertConn_cons_ne c rest nc hc]
      simp only [List.any_cons, List.map_cons, ih]
      by_cases hr : rest.any (fun x => x.targetId = nc.targetId)
      · simp [hr, hc]
      · simp [hr, hc]

lemma filter_targetId_eq_nil (conns : List Connection) (b : String)
    (h : ¬ b ∈ conns.map (fun c => c.targetId)) :
    conns.filter (fun c => c.targetId = b) = [] := by
  induction conns with
  | nil => rfl
  | cons c rest ih =>
    simp only [List.map_cons, List.mem_cons] at h
    push_neg at h
    have hc : ¬ (c.targetId = b) := fun hh => h.1 hh.symm
    simp [List.filter_cons, hc, ih h.2]

lemma upsertConn_map_targetId_nodup (conns : List Connection) (nc : Connection)
    (h : (conns.map (fun c => c.targetId)).Nodup) :
    ((MemoryStore.upsertConn conns nc).map (fun c => c.targetId)).Nodup := by
  rw [MemoryStore.upsertConn_map_targetId]
  by_cases ha : conns.any (fun c => c.targetId = nc.targetId)
  · rwa [if_pos ha]
  · rw [if_neg ha]
    refine List.Nodup.append h (List.nodup_singleton _) ?_
    intro a ha1 ha2
    rw [List.mem_singleton] at ha2
    subst ha2
    rcases List.mem_map.mp ha1 with ⟨c, hcmem, hcid⟩
    exact ha (List.any_eq_true.mpr ⟨c, hcmem, by simp [hcid]⟩)

lemma upsertConn_filter (conns : List Connection) (nc : Connection)
    (h : (conns.map (fun c => c.targetId)).Nodup) :
    (MemoryStore.upsertConn conns nc).filter
      (fun c => c.targetId = nc.targetId) = [nc] := by
  induction conns with
  | nil =>
    simp [MemoryStore.upsertConn]
  | cons c rest ih =>
    simp only [List.map_cons, List.nodup_cons] at h
    by_cases hc : c.targetId = nc.targetId
    · have hset : MemoryStore.upsertConn (c :: rest) nc = nc :: rest := by
        unfold MemoryStore.upsertConn
        rw [List.findIdx?_cons]
        simp [hc]
      rw [hset, List.filter_cons]
      have hrest : rest.filter (fun x => x.targetId = nc.targetId) = [] := by
        apply filter_targetId_eq_nil
        rw [← hc]
        exact h.1
      simp [hrest]
    · rw [MemoryStore.upsertConn_cons_ne c rest nc hc, List.filter_cons]
      simp only [hc, decide_eq_true_eq, if_false]
      exact ih h.2

/-- C7: after `addConnection(A, B, t1, s1)` followed by
`addConnection(A, B, t2, s2)`, a memory with id `A` whose connection
targets were initially duplicate-free holds exactly one connection to
`B`, namely the second one (last write wins). -/
theorem addConnection_last_write_wins (mst : List Memory) (A B : String)
    (t1 t2 : String) (s1 s2 : ℝ) (d1 d2 : Option String)
    (h : ∀ m ∈ mst, m.id = A → (m.connections.map (fun c => c.targetId)).Nodup) :
    ∀ m' ∈ MemoryStore.addConnection
        (MemoryStore.addConnection mst A B t1 s1 d1) A B t2 s2 d2,
      m'.id = A →
        m'.connections.filter (fun c => c.targetId = B) =
          [{ type := t2, targetId := B, strength := s2, description := d2 }] := by
  intro m' hm' hid
  unfold MemoryStore.addConnection at hm'
  rcases List.mem_map.mp hm' with ⟨m1, hm1, hm1eq⟩
  rcases List.mem_map.mp hm1 with ⟨m0, hm0, hm0eq⟩
  by_cases h0 : m0.id = A
  · have hm1val : m1 = { m0 with
        connections := (MemoryStore.upsertConn m0.connections
          { type := t1, targetId := B, strength := s1, description := d1 }) } := by
      rw [← hm0eq]
      simp [h0]
    have hm1id : m1.id = A := by rw [hm1val]; exact h0
    have hm'val : m' = { m1 with
        connections := (MemoryStore.upsertConn m1.connections
          { type := t2, targetId := B, strength := s2, description := d2 }) } := by
      rw [← hm1eq]
      simp [hm1id]
    have hnodup := h m0 hm0 h0
    have hnodup1 : (m1.connections.map (fun c => c.targetId)).Nodup := by
      rw [hm1val]
      exact upsertConn_map_targetId_nodup _ _ hnodup
    rw [hm'val]
    simpa using upsertConn_filter m1.connections
      { type := t2, targetId := B, strength := s2, description := d2 } hnodup1
  · have hm1val : m1 = m0 := by
      rw [← hm0eq]
      simp [h0]
    have hmid : m'.id = m0.id := by
      rw [← hm1eq, hm1val]
      simp [h0]
    exact absurd (hmid.symm.trans hid) h0

/-- A concrete memory with id `A` and no connections, used by the C7
witness. -/
noncomputable def memoryA : Memory :=
  { id := "A", type := "concept", content := "alpha", source := "s"
    timestamp := 1, confidence := 1, connections := []
    metadata :=
      { workspace := none, thread := none, context := none, tags := some []
        timestamp := none } }

/-- Witness for C7: the spec's own example,
`addConnection(A, B, 'related_to', 0.8)` then
`addConnection(A, B, 'causes', 0.3)`. -/
theorem addConnection_last_write_wins_witness :
    (∀ m ∈ [memoryA], m.id = "A" →
      (m.connections.map (fun c => c.targetId)).Nodup) ∧
    (∀ m' ∈ MemoryStore.addConnection
        (MemoryStore.addConnection [memoryA] "A" "B" "related_to" 0.8 none)
        "A" "B" "causes" 0.3 none,
      m'.id = "A" →
        m'.connections.filter (fun c => c.targetId = "B") =
          [{ type := "causes", targetId := "B", strength := 0.3
             description := none }]) :=
  ⟨by simp [memoryA],
   addConnection_last_write_wins [memoryA] "A" "B" "related_to" "causes"
     0.8 0.3 none none (by simp [memoryA])⟩

/-! ## C9: the confidence default swallows an explicit 0 -/

/-- An `addMemory` input that explicitly supplies `confidence: 0`. -/
noncomputable def zeroConfidenceInput : AddMemoryInput :=
  { sampleInput with confidence := some 0 }

/-- A language-model memory proposal that explicitly supplies
`confidence: 0.0` (the extraction prompt documents the range as
`0.0-1.0`). -/
noncomputable def zeroConfidenceProposal : PayloadMemory :=
  { type := "fact", content := "x", confidence := some 0, connections := []
    metadata := none }

/-- C9 (code bug evidence): both creation paths drop an explicit
confidence of `0` and store `1.0` instead, because the default is
applied with the falsy `||` operator: the memory store's `addMemory`
builds `newMemory` with confidence `1`, and the extraction pipeline
builds its candidate with confidence `1`. -/
theorem confidence_zero_coerced_to_one :
    zeroConfidenceInput.confidence = some 0 ∧
    (newMemoryOf zeroConfidenceInput "u1" 3).confidence = 1 ∧
    zeroConfidenceProposal.confidence = some 0 ∧
    (buildCandidate "conv" [] 3 zeroConfidenceProposal).confidence = 1 := by
  refine ⟨rfl, ?_, rfl, ?_⟩
  · simp [newMemoryOf, zeroConfidenceInput, jsOrReal]
  · simp [buildCandidate, zeroConfidenceProposal, jsOrReal]

/-! ## C6: the `findSimilar` pipeline -/

lemma filter_orderedInsert_of_ne {α : Type} (a : α × ℝ) (l : List (α × ℝ))
    (v : ℝ) (hv : ¬ a.2 = v) :
    (l.orderedInsert sndGE a).filter (fun p => p.2 = v) =
      l.filter (fun p => p.2 = v) := by
  induction l with
  | nil => simp [List.orderedInsert, List.filter_cons, hv]
  | cons b bs ih =>
    rw [List.orderedInsert]
    by_cases hr : sndGE a b
    · rw [if_pos hr, List.filter_cons, List.filter_cons]
      simp [hv]
    · rw [if_neg hr, List.filter_cons, List.filter_cons]
      by_cases hb : b.2 = v
      · simp [hb, ih]
      · simp [hb, ih]

lemma filter_orderedInsert_of_eq {α : Type} (a : α × ℝ) (l : List (α × ℝ))
    (v : ℝ) (hv : a.2 = v) :
    (l.orderedInsert sndGE a).filter (fun p => p.2 = v) =
      a :: l.filter (fun p => p.2 = v) := by
  induction l with
  | nil => simp [List.orderedInsert, List.filter_cons, hv]
  | cons b bs ih =>
    rw [List.orderedInsert]
    by_cases hr : sndGE a b
    · rw [if_pos hr, List.filter_cons]
      simp [hv]
    · have hab : a.2 < b.2 := not_le.mp hr
      have hb : ¬ b.2 = v := fun hbv => (ne_of_lt hab) (hv.trans hbv.symm)
      rw [if_neg hr, List.filter_cons]
      simp [hb, ih]

lemma insertionSort_filter_ties {α : Type} (l : List (α × ℝ)) (v : ℝ) :
    (l.insertionSort sndGE).filter (fun p => p.2 = v) =
      l.filter (fun p => p.2 = v) := by
  induction l with
  | nil => rfl
  | cons a as ih =>
    rw [List.insertionSort, List.filter_cons]
    by_cases ha : a.2 = v
    · rw [filter_orderedInsert_of_eq a _ v ha, ih]
      simp [ha]
    · rw [filter_orderedInsert_of_ne a _ v ha, ih]
      simp [ha]

/-- C6: on a successful embedding with all dimensions matching,
`findSimilarMemories` returns the scored collection filtered to
similarities at or above `minSimilarity`, stably sorted in descending
similarity order and truncated to `limit`; every returned projection
keeps at least the similarity floor, the similarities are descending,
at most `limit` matches are returned, every projection has an empty
connections list, and ties are resolved by insertion order (filtering
the sorted stage at any fixed similarity recovers the original
insertion order of the filtered stage). -/
theorem findSimilar_pipeline_spec (embed : Embedder) (vst : List StoredMemory)
    (content : String) (limit : Nat) (minSimilarity : ℝ) (q : List ℝ)
    (scored : List (StoredMemory × ℝ)) (h1 : embed content = .ok q)
    (h2 : scoreAll q vst = .ok scored) :
    ∃ res,
      VectorStore.findSimilarMemories embed vst content limit minSimilarity =
        .ok res ∧
      res = (((scored.filter (fun p => minSimilarity ≤ p.2)).insertionSort
          sndGE).take limit).map
        (fun p => { memory := projectStored p.1, similarity := p.2 }) ∧
      (∀ x ∈ res, minSimilarity ≤ x.similarity) ∧
      List.Sorted (fun a b => b ≤ a) (res.map (fun x => x.similarity)) ∧
      res.length ≤ limit ∧
      (∀ x ∈ res, x.memory.connections = []) ∧
      (∀ v : ℝ,
        (((scored.filter (fun p => minSimilarity ≤ p.2)).insertionSort
            sndGE).filter (fun p => p.2 = v)) =
          (scored.filter (fun p => minSimilarity ≤ p.2)).filter
            (fun p => p.2 = v)) := by
  have hdef : VectorStore.findSimilarMemories embed vst content limit
      minSimilarity = .ok
        ((((scored.filter (fun p => minSimilarity ≤ p.2)).insertionSort
            sndGE).take limit).map
          (fun p => { memory := projectStored p.1, similarity := p.2 })) := by
    unfold VectorStore.findSimilarMemories
    rw [h1]
    dsimp only
    rw [h2]
  refine ⟨_, hdef, rfl, ?_, ?_, ?_, ?_, insertionSort_filter_ties _⟩
  · intro x hx
    rcases List.mem_map.mp hx with ⟨p, hp, hpx⟩
    have hp2 : p ∈ (scored.filter (fun p => minSimilarity ≤ p.2)).insertionSort
        sndGE := List.mem_of_mem_take hp
    have hp3 : p ∈ scored.filter (fun p => minSimilarity ≤ p.2) :=
      (List.mem_insertionSort sndGE).mp hp2
    have := (List.mem_filter.mp hp3).2
    rw [← hpx]
    simpa using this
  · have hs : List.Sorted sndGE
        (((scored.filter (fun p => minSimilarity ≤ p.2)).insertionSort
          sndGE).take limit) :=
      (List.sorted_insertionSort sndGE _).sublist (List.take_sublist _ _)
    rw [List.map_map]
    exact (@List.pairwise_map _ _ (fun p : StoredMemory × ℝ => p.2)
      (fun a b : ℝ => b ≤ a) _).mpr (hs.imp (fun h => h))
  · simp
  · intro x hx
    rcases List.mem_map.mp hx with ⟨p, _, hpx⟩
    rw [← hpx]
    rfl

/-- Witness for C6: a trivially succeeding embedder over the empty
collection. -/
theorem findSimilar_pipeline_spec_witness :
    ((fun _ => Except.ok [(1 : ℝ)]) : Embedder) "q" = .ok [1] ∧
    scoreAll [1] ([] : List StoredMemory) = .ok [] ∧
    ∃ res,
      VectorStore.findSimilarMemories (fun _ => .ok [(1 : ℝ)]) [] "q" 5 0.7 =
        .ok res ∧ res.length ≤ 5 :=
  ⟨rfl, rfl, by
    obtain ⟨res, ha, _, _, _, hd, _⟩ :=
      findSimilar_pipeline_spec (fun _ => .ok [(1 : ℝ)]) [] "q" 5 0.7 [1] []
        rfl rfl
    exact ⟨res, ha, hd⟩⟩

/-! ## C4: extraction assigns ids only on the persisted copies -/

lemma upsertById_cons (m : StoredMemory) (ms : List StoredMemory)
    (st : StoredMemory) :
    upsertById (m :: ms) st =
      if m.id = st.id then st :: ms else m :: upsertById ms st := by
  by_cases h : m.id = st.id
  · unfold upsertById
    rw [List.findIdx?_cons]
    simp [h]
  · rw [if_neg h]
    unfold upsertById
    rw [List.findIdx?_cons, if_neg (by simpa using h), List.findIdx?_succ]
    cases hf : ms.findIdx? (fun sm => decide (sm.id = st.id)) 0 with
    | none => simp [hf]
    | some i => simp [hf]

lemma mem_upsertById_self (ms : List StoredMemory) (st : StoredMemory) :
    st ∈ upsertById ms st := by
  induction ms with
  | nil => exact List.mem_singleton.mpr rfl
  | cons m ms ih =>
    rw [upsertById_cons]
    by_cases h : m.id = st.id
    · rw [if_pos h]
      exact List.mem_cons_self st ms
    · rw [if_neg h]
      exact List.mem_cons_of_mem m ih

lemma mem_upsertById_of_ne (ms : List StoredMemory) (st sm : StoredMemory)
    (hmem : sm ∈ ms) (hne : ¬ sm.id = st.id) : sm ∈ upsertById ms st := by
  induction ms with
  | nil => cases hmem
  | cons m ms ih =>
    rw [upsertById_cons]
    rcases List.mem_cons.mp hmem with hsm | hsm
    · subst hsm
      rw [if_neg hne]
      exact List.mem_cons_self sm _
    · by_cases h : m.id = st.id
      · rw [if_pos h]
        exact List.mem_cons_of_mem st hsm
      · rw [if_neg h]
        exact List.mem_cons_of_mem m (ih hsm)

lemma addMemory_eq (embed : Embedder) (save : Saver)
    (vst : List StoredMemory) (m : Memory) :
    VectorStore.addMemory embed save vst m =
      match embed m.content with
      | .error e => (.error e, vst)
      | .ok v => (.ok (), upsertById vst (storedOf m v)) := by
  unfold VectorStore.addMemory
  cases embed m.content <;> rfl

lemma persistLoop_preserves (embed : Embedder) (save : Saver)
    (cands : List CandidateMemory) (vst : List StoredMemory) (k : Nat)
    (uuid : Nat → String) (now : Nat) (sm : StoredMemory) (hsm : sm ∈ vst)
    (hid : ∀ j, k ≤ j → ¬ uuid j = sm.id) :
    sm ∈ (persistLoop embed save vst k uuid now cands).2 := by
  induction cands generalizing vst k with
  | nil => exact hsm
  | cons c rest ih =>
    unfold persistLoop
    rw [addMemory_eq]
    cases hemb : embed (withAssigned c (uuid k) now).content with
    | error e => exact hsm
    | ok v =>
      dsimp only
      apply ih
      · apply mem_upsertById_of_ne _ _ _ hsm
        intro hEq
        exact hid k (le_refl k) hEq.symm
      · exact fun j hj => hid j (le_trans (Nat.le_succ k) hj)

lemma mem_upsertById (ms : List StoredMemory) (st sm : StoredMemory)
    (h : sm ∈ upsertById ms st) : sm ∈ ms ∨ sm = st := by
  unfold upsertById at h
  cases hf : ms.findIdx? (fun m => decide (m.id = st.id)) with
  | some i =>
    rw [hf] at h
    exact List.mem_or_eq_of_mem_set h
  | none =>
    rw [hf] at h
    rcases List.mem_append.mp h with h1 | h1
    · exact Or.inl h1
    · exact Or.inr (List.mem_singleton.mp h1)

lemma persistLoop_spec (embed : Embedder) (save : Saver)
    (cands : List CandidateMemory) (vst : List StoredMemory) (k : Nat)
    (uuid : Nat → String) (now : Nat)
    (hembed : ∀ s, ∃ v, embed s = .ok v)
    (huuid : ∀ i j, uuid i = uuid j → i = j)
    (hfresh : ∀ sm ∈ vst, ∀ i, k ≤ i → ¬ sm.id = uuid i) :
    (persistLoop embed save vst k uuid now cands).1 = .ok () ∧
    ∀ i (hi : i < cands.length),
      ∃ sm ∈ (persistLoop embed save vst k uuid now cands).2,
        sm.id = uuid (k + i) ∧ sm.metadata.timestamp = now ∧
          sm.content = (cands.get ⟨i, hi⟩).content := by
  induction cands generalizing vst k with
  | nil =>
    exact ⟨rfl, fun i hi => absurd hi (Nat.not_lt_zero i)⟩
  | cons c rest ih =>
    obtain ⟨v, hv⟩ := hembed (withAssigned c (uuid k) now).content
    have hstep : persistLoop embed save vst k uuid now (c :: rest) =
        persistLoop embed save
          (upsertById vst (storedOf (withAssigned c (uuid k) now) v))
          (k + 1) uuid now rest := by
      conv_lhs => rw [persistLoop]
      rw [addMemory_eq, hv]
    have hstid : (storedOf (withAssigned c (uuid k) now) v).id = uuid k := rfl
    have hfresh' : ∀ sm ∈ upsertById vst (storedOf (withAssigned c (uuid k) now) v),
        ∀ i, k + 1 ≤ i → ¬ sm.id = uuid i := by
      intro sm hsm i hki hEq
      rcases mem_upsertById _ _ _ hsm with hm | hm
      · exact hfresh sm hm i (le_trans (Nat.le_succ k) hki) hEq
      · subst hm
        rw [hstid] at hEq
        have := huuid k i hEq
        omega
    obtain ⟨ih1, ih2⟩ := ih (upsertById vst (storedOf (withAssigned c (uuid k) now) v))
      (k + 1) hfresh'
    constructor
    · rw [hstep]
      exact ih1
    · intro i hi
      cases i with
      | zero =>
        refine ⟨storedOf (withAssigned c (uuid k) now) v, ?_, ?_, rfl, rfl⟩
        · rw [hstep]
          apply persistLoop_preserves
          · exact mem_upsertById_self _ _
          · intro j hj hEq
            rw [hstid] at hEq
            have := huuid j k hEq
            omega
        · rw [hstid, Nat.add_zero]
      | succ j =>
        have hj : j < rest.length := Nat.lt_of_succ_lt_succ hi
        obtain ⟨sm, hsm, h1, h2, h3⟩ := ih2 j hj
        refine ⟨sm, ?_, ?_, h2, ?_⟩
        · rw [hstep]
          exact hsm
        · rw [h1]
          congr 1
          omega
        · rw [h3]
          rfl

lemma findSimilar_never_errors (embed : Embedder) (vst : List StoredMemory)
    (content : String) (limit : Nat) (minSimilarity : ℝ) :
    ∃ l, VectorStore.findSimilarMemories embed vst content limit minSimilarity =
      .ok l := by
  unfold VectorStore.findSimilarMemories
  cases embed content with
  | error e => exact ⟨[], rfl⟩
  | ok q =>
    dsimp only
    cases scoreAll q vst with
    | error e => exact ⟨[], rfl⟩
    | ok scored => exact ⟨_, rfl⟩

/-- A one-proposal language-model payload used by the C4 refutation. -/
noncomputable def onePayload : ExtractPayload :=
  { memories := [{ type := "fact", content := "x", confidence := some 0.9
                   connections := [], metadata := none }] }

/-- Counterexample for C4: a run of `extractMemories` whose
language-model response parses into one memory proposal and whose
persistence succeeds; the returned record carries no id and no
timestamp (the code returns the candidates, typed
`Omit<Memory, 'id' | 'timestamp'>[]`, not the persisted full
memories). -/
theorem extract_returned_records_lack_id_timestamp :
    ((MemoryService.extractMemories (fun _ => .ok [(1 : ℝ)]) (fun _ => .ok ())
        (fun _ => .ok "resp") (fun _ => some onePayload)
        (fun _ => "fresh-id") 7 [] "conv" []).1.map
      (fun c => c.id)) = [none] ∧
    ((MemoryService.extractMemories (fun _ => .ok [(1 : ℝ)]) (fun _ => .ok ())
        (fun _ => .ok "resp") (fun _ => some onePayload)
        (fun _ => "fresh-id") 7 [] "conv" []).1.map
      (fun c => c.timestamp)) = [none] :=
  ⟨rfl, rfl⟩

/-- C4 amended: for every conversation whose extraction response parses
successfully (and whose embeddings succeed, with fresh distinct ids),
`extractMemories` persists one full Memory per candidate through the
vector store's upsert, carrying a fresh id and the current timestamp —
but the returned records are the candidates themselves, with neither id
nor timestamp assigned on them. -/
theorem extract_persists_full_returns_candidates (embed : Embedder)
    (save : Saver) (llm : String → Except MemErr String)
    (parse : String → Option ExtractPayload) (uuid : Nat → String) (now : Nat)
    (vst : List StoredMemory) (conversation : String)
    (existingMemories : List Memory) (response : String)
    (payload : ExtractPayload)
    (hllm : ∀ s, llm s = .ok response)
    (hparse : parse response = some payload)
    (hembed : ∀ s, ∃ v, embed s = .ok v)
    (huuid : ∀ i j, uuid i = uuid j → i = j)
    (hfresh : ∀ sm ∈ vst, ∀ i, ¬ sm.id = uuid i) :
    (MemoryService.extractMemories embed save llm parse uuid now vst
        conversation existingMemories).1.length = payload.memories.length ∧
    (∀ c ∈ (MemoryService.extractMemories embed save llm parse uuid now vst
        conversation existingMemories).1, c.id = none ∧ c.timestamp = none) ∧
    (∀ i (hi : i < payload.memories.length),
      ∃ sm ∈ (MemoryService.extractMemories embed save llm parse uuid now vst
          conversation existingMemories).2,
        sm.id = uuid i ∧ sm.metadata.timestamp = now ∧
          sm.content = (payload.memories.get ⟨i, hi⟩).content) := by
  obtain ⟨sem, hsem⟩ := findSimilar_never_errors embed vst conversation 5 0.7
  have hloop := persistLoop_spec embed save
    ((payload.memories.map (buildCandidate conversation
      (existingMemories ++ sem.map (fun r => r.memory)) now))) vst 0 uuid now
    hembed huuid (fun sm hsm i _ => hfresh sm hsm i)
  have hext : MemoryService.extractMemories embed save llm parse uuid now vst
      conversation existingMemories =
      (payload.memories.map (buildCandidate conversation
          (existingMemories ++ sem.map (fun r => r.memory)) now),
        (persistLoop embed save vst 0 uuid now
          (payload.memories.map (buildCandidate conversation
            (existingMemories ++ sem.map (fun r => r.memory)) now))).2) := by
    unfold MemoryService.extractMemories
    rw [hsem]
    dsimp only
    rw [hllm _]
    dsimp only
    rw [hparse]
    dsimp only
    rcases hres : persistLoop embed save vst 0 uuid now
        (payload.memories.map (buildCandidate conversation
          (existingMemories ++ sem.map (fun r => r.memory)) now)) with ⟨r1, r2⟩
    have : r1 = .ok () := by
      have := hloop.1
      rw [hres] at this
      exact this
    rw [this]
  rw [hext]
  refine ⟨by simp, ?_, ?_⟩
  · intro c hc
    rcases List.mem_map.mp hc with ⟨em, _, hem⟩
    rw [← hem]
    exact ⟨rfl, rfl⟩
  · intro i hi
    have hi' : i < (payload.memories.map (buildCandidate conversation
        (existingMemories ++ sem.map (fun r => r.memory)) now)).length := by
      simpa using hi
    obtain ⟨sm, hsm, h1, h2, h3⟩ := hloop.2 i hi'
    refine ⟨sm, hsm, by simpa using h1, h2, ?_⟩
    rw [h3]
    simp only [List.get_eq_getElem, List.getElem_map]
    rfl

/-- Witness for the amended C4 at a concrete one-proposal run with an
injective id supply. -/
theorem extract_persists_full_returns_candidates_witness :
    (MemoryService.extractMemories (fun _ => .ok [(1 : ℝ)]) (fun _ => .ok ())
        (fun _ => .ok "resp") (fun _ => some onePayload)
        (fun k => String.mk (List.replicate k 'a')) 7 [] "conv" []).1.length =
      1 ∧
    (∀ c ∈ (MemoryService.extractMemories (fun _ => .ok [(1 : ℝ)])
        (fun _ => .ok ()) (fun _ => .ok "resp") (fun _ => some onePayload)
        (fun k => String.mk (List.replicate k 'a')) 7 [] "conv" []).1,
      c.id = none ∧ c.timestamp = none) := by
  obtain ⟨h1, h2, _⟩ := extract_persists_full_returns_candidates
    (fun _ => .ok [(1 : ℝ)]) (fun _ => .ok ()) (fun _ => .ok "resp")
    (fun _ => some onePayload) (fun k => String.mk (List.replicate k 'a')) 7
    [] "conv" [] "resp" onePayload (fun _ => rfl) rfl
    (fun _ => ⟨[(1 : ℝ)], rfl⟩)
    (fun i j h => by
      have := congrArg String.length h
      simpa using this)
    (fun sm hsm => absurd hsm (List.not_mem_nil sm))
  exact ⟨by simpa [onePayload] using h1, h2⟩

/-! ## Infrastructure for C1 and C10: characterizing `getRelatedMemories` -/

lemma jsMapGet_nil {β : Type} (k : String) :
    jsMapGet ([] : List (String × β)) k = none := rfl

lemma jsMapGet_cons {β : Type} (p : String × β) (rest : List (String × β))
    (k : String) :
    jsMapGet (p :: rest) k = if p.1 = k then some p.2 else jsMapGet rest k := by
  by_cases h : p.1 = k <;> simp [jsMapGet, List.find?_cons, h]

lemma jsMapSet_cons {β : Type} (p : String × β) (rest : List (String × β))
    (k : String) (v : β) :
    jsMapSet (p :: rest) k v =
      if p.1 = k then (k, v) :: rest else p :: jsMapSet rest k v := by
  by_cases h : p.1 = k <;> simp [jsMapSet, h]

lemma jsMapGet_set_same {β : Type} (m : List (String × β)) (k : String) (v : β) :
    jsMapGet (jsMapSet m k v) k = some v := by
  induction m with
  | nil => simp [jsMapSet, jsMapGet]
  | cons p rest ih =>
    rw [jsMapSet_cons]
    by_cases h : p.1 = k
    · rw [if_pos h, jsMapGet_cons, if_pos rfl]
    · rw [if_neg h, jsMapGet_cons, if_neg h]
      exact ih

lemma jsMapGet_set_other {β : Type} (m : List (String × β)) (k k' : String)
    (v : β) (h : ¬ k' = k) : jsMapGet (jsMapSet m k v) k' = jsMapGet m k' := by
  have h' : ¬ k = k' := fun hh => h hh.symm
  induction m with
  | nil => simp [jsMapSet, jsMapGet, h']
  | cons p rest ih =>
    rw [jsMapSet_cons]
    by_cases hp : p.1 = k
    · rw [if_pos hp, jsMapGet_cons, jsMapGet_cons, if_neg h']
      rw [hp, if_neg h']
    · rw [if_neg hp, jsMapGet_cons, jsMapGet_cons]
      by_cases hpk : p.1 = k'
      · rw [if_pos hpk, if_pos hpk]
      · rw [if_neg hpk, if_neg hpk]
        exact ih

lemma initFold_split (conns : List Connection) (s : List String)
    (m : List (String × ℝ)) :
    conns.foldl
      (fun p c => (jsSetAdd p.1 c.targetId, jsMapSet p.2 c.targetId c.strength))
      (s, m) =
    (conns.foldl (fun s' c => jsSetAdd s' c.targetId) s,
     conns.foldl (fun m' c => jsMapSet m' c.targetId c.strength) m) := by
  induction conns generalizing s m with
  | nil => rfl
  | cons c cs ih => simpa using ih _ _

/-- The `relatedIds` component of the two discovery passes. -/
def relatedIdsOf (mst : List Memory) (target : Memory) (id : String) :
    List String :=
  mst.foldl (fun s memory =>
    memory.connections.foldl (fun s' conn =>
      if conn.targetId = id then jsSetAdd s' memory.id else s') s)
    (target.connections.foldl (fun s c => jsSetAdd s c.targetId) [])

/-- The `relationStrengths` component of the two discovery passes. -/
noncomputable def relatedStrengthsOf (mst : List Memory) (target : Memory)
    (id : String) : List (String × ℝ) :=
  mst.foldl (fun m memory =>
    memory.connections.foldl (fun m' conn =>
      if conn.targetId = id then
        jsMapSet m' memory.id
          (max conn.strength (jsOrReal (jsMapGet m' memory.id) 0))
      else m') m)
    (target.connections.foldl (fun m c => jsMapSet m c.targetId c.strength) [])

lemma innerFold_split (memory : Memory) (id : String) (conns : List Connection)
    (s : List String) (m : List (String × ℝ)) :
    conns.foldl (fun q conn =>
      if conn.targetId = id then
        (jsSetAdd q.1 memory.id,
         jsMapSet q.2 memory.id
           (max conn.strength (jsOrReal (jsMapGet q.2 memory.id) 0)))
      else q) (s, m) =
    (conns.foldl (fun s' conn =>
        if conn.targetId = id then jsSetAdd s' memory.id else s') s,
     conns.foldl (fun m' conn =>
        if conn.targetId = id then
          jsMapSet m' memory.id
            (max conn.strength (jsOrReal (jsMapGet m' memory.id) 0))
        else m') m) := by
  induction conns generalizing s m with
  | nil => rfl
  | cons c cs ih =>
    simp only [List.foldl_cons]
    by_cases hc : c.targetId = id
    · rw [if_pos hc, if_pos hc, if_pos hc]
      exact ih _ _
    · rw [if_neg hc, if_neg hc, if_neg hc]
      exact ih _ _

lemma relatedFold_split (mst : List Memory) (target : Memory) (id : String) :
    MemoryStore.relatedFold mst target id =
      (relatedIdsOf mst target id, relatedStrengthsOf mst target id) := by
  unfold MemoryStore.relatedFold relatedIdsOf relatedStrengthsOf
  dsimp only
  rw [initFold_split]
  generalize (target.connections.foldl (fun s c => jsSetAdd s c.targetId) []) = s0
  generalize (target.connections.foldl
    (fun m c => jsMapSet m c.targetId c.strength) []) = m0
  induction mst generalizing s0 m0 with
  | nil => rfl
  | cons memory rest ih =>
    simp only [List.foldl_cons]
    rw [innerFold_split]
    exact ih _ _

/-- One id per edge pointing back at the target, in scan order (the
order in which the second discovery pass performs its `Set.add`s). -/
def scanIdList (mst : List Memory) (id : String) : List String :=
  mst.flatMap (fun m =>
    (m.connections.filter (fun c => c.targetId = id)).map (fun _ => m.id))

lemma dedupFromSeen_nil (seen : List String) : dedupFromSeen seen [] = [] := rfl

lemma dedupFromSeen_cons (seen : List String) (x : String) (xs : List String) :
    dedupFromSeen seen (x :: xs) =
      if seen.contains x then dedupFromSeen seen xs
      else x :: dedupFromSeen (seen ++ [x]) xs := rfl

lemma foldl_jsSetAdd_eq_dedup (l s : List String) :
    l.foldl jsSetAdd s = s ++ dedupFromSeen s l := by
  induction l generalizing s with
  | nil => simp [dedupFromSeen_nil]
  | cons x xs ih =>
    rw [List.foldl_cons, ih (jsSetAdd s x), dedupFromSeen_cons]
    simp only [jsSetAdd]
    by_cases h : s.contains x
    · rw [if_pos h, if_pos h]
    · rw [if_neg h, if_neg h]
      simp

lemma innerScan_foldl (x : String) (id : String) (conns : List Connection)
    (s : List String) :
    conns.foldl (fun s' conn =>
        if conn.targetId = id then jsSetAdd s' x else s') s =
      ((conns.filter (fun c => c.targetId = id)).map (fun _ => x)).foldl
        jsSetAdd s := by
  induction conns generalizing s with
  | nil => rfl
  | cons c cs ih =>
    rw [List.foldl_cons]
    by_cases hc : c.targetId = id
    · rw [if_pos hc]
      have hf : (c :: cs).filter (fun c => c.targetId = id) =
          c :: cs.filter (fun c => c.targetId = id) := by
        simp [List.filter_cons, hc]
      rw [hf, List.map_cons, List.foldl_cons]
      exact ih _
    · rw [if_neg hc]
      have hf : (c :: cs).filter (fun c => c.targetId = id) =
          cs.filter (fun c => c.targetId = id) := by
        simp [List.filter_cons, hc]
      rw [hf]
      exact ih _

lemma outerScan_foldl (mst : List Memory) (id : String) (s : List String) :
    mst.foldl (fun s' memory =>
        memory.connections.foldl (fun s'' conn =>
          if conn.targetId = id then jsSetAdd s'' memory.id else s'') s') s =
      (scanIdList mst id).foldl jsSetAdd s := by
  induction mst generalizing s with
  | nil => rfl
  | cons m rest ih =>
    rw [List.foldl_cons, innerScan_foldl]
    unfold scanIdList
    rw [List.flatMap_cons, List.foldl_append]
    exact ih _

lemma relatedIdsOf_eq_dedup (mst : List Memory) (target : Memory) (id : String) :
    relatedIdsOf mst target id =
      dedupFirst (target.connections.map (fun c => c.targetId) ++
        scanIdList mst id) := by
  unfold relatedIdsOf dedupFirst
  rw [outerScan_foldl]
  have h1 : target.connections.foldl (fun s c => jsSetAdd s c.targetId) [] =
      (target.connections.map (fun c => c.targetId)).foldl jsSetAdd [] := by
    rw [List.foldl_map]
  rw [h1, ← List.foldl_append, foldl_jsSetAdd_eq_dedup]
  simp

lemma dedupFromSeen_append (a b seen : List String) :
    dedupFromSeen seen (a ++ b) =
      dedupFromSeen seen a ++
        dedupFromSeen (seen ++ dedupFromSeen seen a) b := by
  induction a generalizing seen with
  | nil => simp [dedupFromSeen_nil]
  | cons x xs ih =>
    rw [List.cons_append, dedupFromSeen_cons, dedupFromSeen_cons]
    by_cases h : seen.contains x
    · rw [if_pos h, if_pos h]
      exact ih seen
    · rw [if_neg h, if_neg h, ih (seen ++ [x]), List.cons_append]
      simp [List.append_assoc]

lemma dedupFromSeen_replicate (n : Nat) (x : String) (seen rest : List String)
    (hn : 0 < n) :
    dedupFromSeen seen (List.replicate n x ++ rest) =
      dedupFromSeen seen (x :: rest) := by
  induction n generalizing seen with
  | zero => cases hn
  | succ n ih =>
    cases n with
    | zero => rfl
    | succ m =>
      rw [List.replicate_succ, List.cons_append, dedupFromSeen_cons,
        dedupFromSeen_cons]
      by_cases h : seen.contains x
      · rw [if_pos h, if_pos h, ih seen (Nat.succ_pos m), dedupFromSeen_cons,
          if_pos h]
      · rw [if_neg h, if_neg h, ih (seen ++ [x]) (Nat.succ_pos m),
          dedupFromSeen_cons, if_pos (by simp)]

lemma contains_iff_mem (s : List String) (x : String) :
    s.contains x = true ↔ x ∈ s := List.elem_iff

lemma dedupFromSeen_scanIdList (mst : List Memory) (id : String)
    (seen : List String) :
    dedupFromSeen seen (scanIdList mst id) =
      dedupFromSeen seen ((mst.filter (fun m =>
        m.connections.any (fun c => c.targetId = id))).map (fun m => m.id)) := by
  induction mst generalizing seen with
  | nil => rfl
  | cons m rest ih =>
    have hsplit : scanIdList (m :: rest) id =
        List.replicate ((m.connections.filter
          (fun c => c.targetId = id)).length) m.id ++ scanIdList rest id := by
      unfold scanIdList
      rw [List.flatMap_cons, List.map_const']
    rw [hsplit]
    cases hn : (m.connections.filter (fun c => c.targetId = id)).length with
    | zero =>
      have hfil : m.connections.filter (fun c => c.targetId = id) = [] :=
        List.length_eq_zero.mp hn
      have hany : m.connections.any (fun c => c.targetId = id) = false := by
        rw [List.any_eq_false]
        intro c hc
        have := List.filter_eq_nil_iff.mp hfil c hc
        simpa using this
      have hrest : (m :: rest).filter (fun m' =>
          m'.connections.any (fun c => c.targetId = id)) =
          rest.filter (fun m' =>
            m'.connections.any (fun c => c.targetId = id)) := by
        rw [List.filter_cons, hany]
        simp
      rw [hrest, List.replicate_zero, List.nil_append]
      exact ih seen
    | succ k =>
      have hany : m.connections.any (fun c => c.targetId = id) = true := by
        rcases List.length_pos_iff_exists_mem.mp (by rw [hn]; omega) with ⟨c, hc⟩
        rcases List.mem_filter.mp hc with ⟨hcm, hcp⟩
        exact List.any_eq_true.mpr ⟨c, hcm, hcp⟩
      have hrest : (m :: rest).filter (fun m' =>
          m'.connections.any (fun c => c.targetId = id)) =
          m :: rest.filter (fun m' =>
            m'.connections.any (fun c => c.targetId = id)) := by
        rw [List.filter_cons, hany]
        simp
      rw [hrest, dedupFromSeen_replicate (k + 1) m.id seen _ (Nat.succ_pos k),
        List.map_cons, dedupFromSeen_cons, dedupFromSeen_cons]
      by_cases h : seen.contains m.id
      · rw [if_pos h, if_pos h]
        exact ih seen
      · rw [if_neg h, if_neg h, ih (seen ++ [m.id])]

lemma relatedIdsOf_eq_spec (mst : List Memory) (target : Memory) (id : String) :
    relatedIdsOf mst target id = specExplicitIds mst target id := by
  rw [relatedIdsOf_eq_dedup]
  unfold specExplicitIds dedupFirst
  rw [dedupFromSeen_append, dedupFromSeen_append]
  congr 1
  exact dedupFromSeen_scanIdList mst id _

lemma mem_dedupFromSeen (x : String) (l : List String) :
    ∀ seen, x ∈ dedupFromSeen seen l ↔ x ∈ l ∧ ¬ x ∈ seen := by
  induction l with
  | nil => simp [dedupFromSeen_nil]
  | cons y ys ih =>
    intro seen
    rw [dedupFromSeen_cons]
    by_cases h : seen.contains y
    · rw [if_pos h]
      have hy : y ∈ seen := (contains_iff_mem seen y).mp h
      rw [ih seen]
      constructor
      · exact fun ⟨h1, h2⟩ => ⟨List.mem_cons_of_mem y h1, h2⟩
      · rintro ⟨h1, h2⟩
        rcases List.mem_cons.mp h1 with rfl | h1
        · exact absurd hy h2
        · exact ⟨h1, h2⟩
    · rw [if_neg h]
      have hy : ¬ y ∈ seen := fun hm => h ((contains_iff_mem seen y).mpr hm)
      constructor
      · intro hm
        rcases List.mem_cons.mp hm with rfl | hm
        · exact ⟨List.mem_cons_self x ys, hy⟩
        · rw [ih (seen ++ [y])] at hm
          refine ⟨List.mem_cons_of_mem y hm.1, fun hs => hm.2 ?_⟩
          exact List.mem_append.mpr (Or.inl hs)
      · rintro ⟨h1, h2⟩
        rcases List.mem_cons.mp h1 with rfl | h1
        · exact List.mem_cons_self x _
        · by_cases hxy : x = y
          · subst hxy
            exact List.mem_cons_self x _
          · refine List.mem_cons_of_mem y ?_
            rw [ih (seen ++ [y])]
            refine ⟨h1, fun hs => ?_⟩
            rcases List.mem_append.mp hs with hs | hs
            · exact h2 hs
            · exact hxy (List.mem_singleton.mp hs)

lemma nodup_dedupFromSeen (l : List String) :
    ∀ seen, (dedupFromSeen seen l).Nodup := by
  induction l with
  | nil => intro seen; simp [dedupFromSeen_nil]
  | cons y ys ih =>
    intro seen
    rw [dedupFromSeen_cons]
    by_cases h : seen.contains y
    · rw [if_pos h]
      exact ih seen
    · rw [if_neg h]
      refine List.nodup_cons.mpr ⟨fun hm => ?_, ih (seen ++ [y])⟩
      have := ((mem_dedupFromSeen y ys (seen ++ [y])).mp hm).2
      exact this (List.mem_append.mpr (Or.inr (List.mem_singleton.mpr rfl)))

lemma jsOrReal_none (d : ℝ) : jsOrReal none d = d := rfl

lemma jsOrReal_some_zero (v : ℝ) : jsOrReal (some v) 0 = v := by
  show (if v = 0 then (0 : ℝ) else v) = v
  by_cases h : v = 0
  · rw [if_pos h, h]
  · rw [if_neg h]

lemma initStrengths_get (conns : List Connection)
    (h : (conns.map (fun c => c.targetId)).Nodup)
    (m₀ : List (String × ℝ)) (c : String) :
    jsMapGet (conns.foldl (fun m cn => jsMapSet m cn.targetId cn.strength) m₀) c =
      match conns.find? (fun cn => cn.targetId = c) with
      | some cn => some cn.strength
      | none => jsMapGet m₀ c := by
  induction conns generalizing m₀ with
  | nil => rfl
  | cons cn cs ih =>
    simp only [List.map_cons, List.nodup_cons] at h
    rw [List.foldl_cons]
    by_cases hc : cn.targetId = c
    · rw [List.find?_cons_of_pos _ (by simpa using hc)]
      rw [ih h.2]
      have hnone : cs.find? (fun d => decide (d.targetId = c)) = none := by
        rw [List.find?_eq_none]
        intro d hd hp
        have hdc : d.targetId = c := by simpa using hp
        refine h.1 ?_
        rw [hc, ← hdc]
        exact List.mem_map_of_mem _ hd
      rw [hnone, ← hc, jsMapGet_set_same]
    · rw [List.find?_cons_of_neg _ (by simpa using hc)]
      rw [ih h.2]
      cases hfind : cs.find? (fun d => decide (d.targetId = c)) with
      | some d => rfl
      | none =>
        exact jsMapGet_set_other m₀ cn.targetId c cn.strength
          (fun hh => hc hh.symm)

lemma innerStrength_get (memory : Memory) (id : String)
    (conns : List Connection) (m₀ : List (String × ℝ)) (c : String) :
    jsMapGet (conns.foldl (fun m' conn =>
        if conn.targetId = id then
          jsMapSet m' memory.id
            (max conn.strength (jsOrReal (jsMapGet m' memory.id) 0))
        else m') m₀) c =
      if memory.id = c then
        ((conns.filter (fun cn => cn.targetId = id)).map
          (fun cn => cn.strength)).foldl
          (fun acc s => some (max s (jsOrReal acc 0))) (jsMapGet m₀ c)
      else jsMapGet m₀ c := by
  induction conns generalizing m₀ with
  | nil =>
    by_cases hmc : memory.id = c
    · rw [if_pos hmc]
      rfl
    · rw [if_neg hmc]
      rfl
  | cons cn cs ih =>
    rw [List.foldl_cons]
    by_cases hcn : cn.targetId = id
    · rw [if_pos hcn]
      have hfil : (cn :: cs).filter (fun d => d.targetId = id) =
          cn :: cs.filter (fun d => d.targetId = id) := by
        simp [List.filter_cons, hcn]
      rw [ih, hfil, List.map_cons, List.foldl_cons]
      by_cases hmc : memory.id = c
      · rw [if_pos hmc, if_pos hmc]
        subst hmc
        rw [jsMapGet_set_same]
      · rw [if_neg hmc, if_neg hmc]
        exact jsMapGet_set_other m₀ memory.id c _ (fun hh => hmc hh.symm)
    · rw [if_neg hcn]
      have hfil : (cn :: cs).filter (fun d => d.targetId = id) =
          cs.filter (fun d => d.targetId = id) := by
        simp [List.filter_cons, hcn]
      rw [ih, hfil]

lemma specInStrengths_cons (memory : Memory) (rest : List Memory)
    (id c : String) :
    specInStrengths (memory :: rest) id c =
      (if memory.id = c then
        (memory.connections.filter (fun cn => cn.targetId = id)).map
          (fun cn => cn.strength)
      else []) ++ specInStrengths rest id c := by
  unfold specInStrengths
  by_cases h : memory.id = c
  · rw [if_pos h]
    have hfil : (memory :: rest).filter (fun m => m.id = c) =
        memory :: rest.filter (fun m => m.id = c) := by
      simp [List.filter_cons, h]
    rw [hfil, List.flatMap_cons]
  · rw [if_neg h]
    have hfil : (memory :: rest).filter (fun m => m.id = c) =
        rest.filter (fun m => m.id = c) := by
      simp [List.filter_cons, h]
    rw [hfil, List.nil_append]

lemma outerStrength_get (mst : List Memory) (id : String)
    (m₀ : List (String × ℝ)) (c : String) :
    jsMapGet (mst.foldl (fun m memory =>
      memory.connections.foldl (fun m' conn =>
        if conn.targetId = id then
          jsMapSet m' memory.id
            (max conn.strength (jsOrReal (jsMapGet m' memory.id) 0))
        else m') m) m₀) c =
      (specInStrengths mst id c).foldl
        (fun acc s => some (max s (jsOrReal acc 0))) (jsMapGet m₀ c) := by
  induction mst generalizing m₀ with
  | nil => rfl
  | cons memory rest ih =>
    rw [List.foldl_cons, ih, specInStrengths_cons, List.foldl_append,
      innerStrength_get]
    by_cases h : memory.id = c
    · rw [if_pos h, if_pos h]
    · rw [if_neg h, if_neg h, List.foldl_nil]

lemma listMax0_nil : listMax0 [] = 0 := rfl

lemma listMax0_cons (x : ℝ) (l : List ℝ) :
    listMax0 (x :: l) = max x (listMax0 l) := rfl

lemma listMax0_nonneg (l : List ℝ) : 0 ≤ listMax0 l := by
  induction l with
  | nil => exact le_refl 0
  | cons x xs ih =>
    rw [listMax0_cons]
    exact le_trans ih (le_max_right x (listMax0 xs))

lemma listMax0_append (a b : List ℝ) :
    listMax0 (a ++ b) = max (listMax0 a) (listMax0 b) := by
  induction a with
  | nil =>
    rw [List.nil_append, listMax0_nil]
    exact (max_eq_right (listMax0_nonneg b)).symm
  | cons x xs ih =>
    rw [List.cons_append, listMax0_cons, listMax0_cons, ih, max_assoc]

lemma strengthFold_max (l : List ℝ) (acc : Option ℝ)
    (hl : ∀ s ∈ l, 0 ≤ s) (hbase : 0 ≤ jsOrReal acc 0) (hne : l ≠ []) :
    l.foldl (fun a s => some (max s (jsOrReal a 0))) acc =
      some (max (listMax0 l) (jsOrReal acc 0)) := by
  induction l generalizing acc with
  | nil => exact absurd rfl hne
  | cons s t ih =>
    rw [List.foldl_cons]
    have hs : 0 ≤ s := hl s (List.mem_cons_self s t)
    cases ht : t with
    | nil =>
      rw [List.foldl_nil, listMax0_cons, listMax0_nil]
      rw [max_eq_left hs]
    | cons u us =>
      rw [← ht]
      have hstep : jsOrReal (some (max s (jsOrReal acc 0))) 0 =
          max s (jsOrReal acc 0) := jsOrReal_some_zero _
      rw [ih (some (max s (jsOrReal acc 0)))
        (fun x hx => hl x (List.mem_cons_of_mem s hx))
        (by rw [hstep]; exact le_trans hs (le_max_left _ _))
        (by rw [ht]; exact List.cons_ne_nil u us)]
      rw [hstep, listMax0_cons]
      congr 1
      rw [max_left_comm, max_assoc]

lemma specInStrengths_nonneg (mst : List Memory) (id c : String)
    (hs : ∀ m ∈ mst, ∀ cn ∈ m.connections, 0 ≤ cn.strength) :
    ∀ s ∈ specInStrengths mst id c, 0 ≤ s := by
  intro s hsmem
  unfold specInStrengths at hsmem
  rcases List.mem_flatMap.mp hsmem with ⟨m, hm, hsm⟩
  rcases List.mem_map.mp hsm with ⟨cn, hcn, hcns⟩
  have hmm := (List.mem_filter.mp hm).1
  have hcnm := (List.mem_filter.mp hcn).1
  rw [← hcns]
  exact hs m hmm cn hcnm

lemma filter_eq_of_find_nodup (conns : List Connection) (c : String)
    (h : (conns.map (fun cn => cn.targetId)).Nodup) :
    conns.filter (fun cn => cn.targetId = c) =
      match conns.find? (fun cn => cn.targetId = c) with
      | some cn => [cn]
      | none => [] := by
  induction conns with
  | nil => rfl
  | cons cn cs ih =>
    simp only [List.map_cons, List.nodup_cons] at h
    by_cases hc : cn.targetId = c
    · rw [List.find?_cons_of_pos _ (by simpa using hc)]
      have hfil : (cn :: cs).filter (fun d => d.targetId = c) =
          cn :: cs.filter (fun d => d.targetId = c) := by
        simp [List.filter_cons, hc]
      rw [hfil]
      have : cs.filter (fun d => d.targetId = c) = [] := by
        apply filter_targetId_eq_nil
        rw [← hc]
        exact h.1
      rw [this]
    · rw [List.find?_cons_of_neg _ (by simpa using hc)]
      have hfil : (cn :: cs).filter (fun d => d.targetId = c) =
          cs.filter (fun d => d.targetId = c) := by
        simp [List.filter_cons, hc]
      rw [hfil]
      exact ih h.2

lemma explicit_strength_eq (mst : List Memory) (target : Memory)
    (id c : String)
    (htc : (target.connections.map (fun cn => cn.targetId)).Nodup)
    (hts : ∀ cn ∈ target.connections, 0 ≤ cn.strength)
    (hs : ∀ m ∈ mst, ∀ cn ∈ m.connections, 0 ≤ cn.strength) :
    jsOrReal (jsMapGet (relatedStrengthsOf mst target id) c) 0 =
      specExplicitStrength mst target id c := by
  unfold relatedStrengthsOf specExplicitStrength specOutStrengths
  rw [outerStrength_get, initStrengths_get _ htc, listMax0_append,
    filter_eq_of_find_nodup _ _ htc]
  cases hfind : target.connections.find? (fun cn => cn.targetId = c) with
  | some cn =>
    dsimp only
    have hcn0 : 0 ≤ cn.strength :=
      hts cn (List.mem_of_find?_eq_some hfind)
    by_cases hIn : specInStrengths mst id c = []
    · rw [hIn, List.foldl_nil, jsOrReal_some_zero]
      simp only [List.map_cons, List.map_nil, listMax0_cons, listMax0_nil]
      rw [max_eq_left hcn0, max_eq_left hcn0]
    · rw [strengthFold_max _ _ (specInStrengths_nonneg mst id c hs)
        (by rw [jsOrReal_some_zero]; exact hcn0) hIn]
      rw [jsOrReal_some_zero, jsOrReal_some_zero]
      simp only [List.map_cons, List.map_nil, listMax0_cons, listMax0_nil]
      rw [max_eq_left hcn0, max_comm]
  | none =>
    dsimp only
    rw [jsMapGet_nil]
    by_cases hIn : specInStrengths mst id c = []
    · rw [hIn, List.foldl_nil, jsOrReal_none]
      simp [listMax0_nil]
    · rw [strengthFold_max _ _ (specInStrengths_nonneg mst id c hs)
        (by rw [jsOrReal_none]) hIn]
      rw [jsOrReal_some_zero, jsOrReal_none]
      simp only [List.map_nil, listMax0_nil]
      rw [max_eq_left (listMax0_nonneg _), max_eq_right (listMax0_nonneg _)]

lemma jsMapSet_append_of_notmem {β : Type} (m : List (String × β)) (k : String)
    (v : β) (h : ¬ k ∈ m.map (fun p => p.1)) : jsMapSet m k v = m ++ [(k, v)] := by
  induction m with
  | nil => rfl
  | cons p rest ih =>
    simp only [List.map_cons, List.mem_cons] at h
    push_neg at h
    rw [jsMapSet_cons, if_neg (fun hh => h.1 hh.symm), ih h.2, List.cons_append]

lemma jsMapOfList_go {β : Type} (l acc : List (String × β))
    (hnd : (l.map (fun p => p.1)).Nodup)
    (hdisj : ∀ p ∈ l, ¬ p.1 ∈ acc.map (fun q => q.1)) :
    l.foldl (fun m p => jsMapSet m p.1 p.2) acc = acc ++ l := by
  induction l generalizing acc with
  | nil => simp
  | cons p ps ih =>
    simp only [List.map_cons, List.nodup_cons] at hnd
    rw [List.foldl_cons,
      jsMapSet_append_of_notmem acc p.1 p.2 (hdisj p (List.mem_cons_self p ps))]
    rw [ih (acc ++ [p]) hnd.2]
    · simp
    · intro q hq hmem
      rw [List.map_append, List.mem_append] at hmem
      rcases hmem with hmem | hmem
      · exact hdisj q (List.mem_cons_of_mem p hq) hmem
      · have : q.1 = p.1 := by simpa using hmem
        exact hnd.1 (this ▸ List.mem_map_of_mem (fun r => r.1) hq)

lemma jsMapOfList_eq_self {β : Type} (l : List (String × β))
    (hnd : (l.map (fun p => p.1)).Nodup) : jsMapOfList l = l := by
  unfold jsMapOfList
  rw [jsMapOfList_go l [] hnd (by simp)]
  simp

lemma semMapOf_keys (sem : List SimilarResult) :
    (sem.map (fun r => (r.memory.id, r))).map (fun p => p.1) =
      sem.map (fun r => r.memory.id) := by
  rw [List.map_map]
  rfl

lemma semantic_lookup_eq (sem : List SimilarResult)
    (hnd : (sem.map (fun r => r.memory.id)).Nodup) (c : String) :
    (match jsMapGet (MemoryStore.semMapOf sem) c with
      | some r => r.similarity
      | none => 0) = specSemanticStrength sem c := by
  unfold MemoryStore.semMapOf specSemanticStrength
  rw [jsMapOfList_eq_self _ (by rw [semMapOf_keys]; exact hnd)]
  unfold jsMapGet
  rw [List.find?_map]
  have h1 : ((fun p : String × SimilarResult => decide (p.1 = c)) ∘
      (fun r => (r.memory.id, r))) =
      (fun r : SimilarResult => decide (r.memory.id = c)) := rfl
  rw [h1]
  cases hf : sem.find? (fun r => decide (r.memory.id = c)) with
  | none => rfl
  | some r => rfl

lemma foldl_push_filter {γ : Type} (l : List γ) (cond : γ → Bool)
    (f : γ → Memory) (acc : List Memory) :
    l.foldl (fun a q => if cond q then a else a ++ [f q]) acc =
      acc ++ (l.filter (fun q => ! cond q)).map f := by
  induction l generalizing acc with
  | nil => simp
  | cons q qs ih =>
    rw [List.foldl_cons]
    by_cases hc : cond q
    · rw [if_pos hc]
      have hfil : (q :: qs).filter (fun x => ! cond x) =
          qs.filter (fun x => ! cond x) := by
        simp [List.filter_cons, hc]
      rw [hfil]
      exact ih acc
    · rw [if_neg hc]
      have hfil : (q :: qs).filter (fun x => ! cond x) =
          q :: qs.filter (fun x => ! cond x) := by
        simp [List.filter_cons, hc]
      rw [hfil, ih (acc ++ [f q]), List.map_cons]
      simp

lemma mem_specExplicitIds_iff (mst : List Memory) (target : Memory)
    (id c : String) :
    c ∈ specExplicitIds mst target id ↔
      specHasExplicitEdge mst target id c = true := by
  unfold specExplicitIds dedupFirst specHasExplicitEdge
  rw [mem_dedupFromSeen]
  simp only [List.not_mem_nil, not_false_iff, and_true, List.mem_append,
    List.mem_map, List.mem_filter, Bool.or_eq_true, List.any_eq_true]
  constructor
  · rintro (⟨cn, hcn, hcnc⟩ | ⟨m, ⟨hm, hany⟩, hmc⟩)
    · exact Or.inl ⟨cn, hcn, by simpa using hcnc⟩
    · refine Or.inr ⟨m, hm, ?_⟩
      simp only [Bool.and_eq_true, beq_iff_eq]
      exact ⟨hmc, by simpa using hany⟩
  · rintro (⟨cn, hcn, hcnc⟩ | ⟨m, hm, hrest⟩)
    · exact Or.inl ⟨cn, hcn, by simpa using hcnc⟩
    · simp only [Bool.and_eq_true, beq_iff_eq] at hrest
      exact Or.inr ⟨m, ⟨hm, by simpa using hrest.2⟩, hrest.1⟩

lemma scoreAll_map_fst (q : List ℝ) (vst : List StoredMemory)
    (scored : List (StoredMemory × ℝ)) (h : scoreAll q vst = .ok scored) :
    scored.map (fun p => p.1) = vst := by
  induction vst generalizing scored with
  | nil =>
    unfold scoreAll at h
    cases h
    rfl
  | cons sm rest ih =>
    unfold scoreAll at h
    cases hcs : cosineSimilarity q sm.embedding with
    | error e => rw [hcs] at h; cases h
    | ok s =>
      rw [hcs] at h
      cases hrest : scoreAll q rest with
      | error e => rw [hrest] at h; cases h
      | ok tail =>
        rw [hrest] at h
        cases h
        rw [List.map_cons, ih tail hrest]

lemma findSimilar_ids_nodup (embed : Embedder) (vst : List StoredMemory)
    (content : String) (limit : Nat) (minSimilarity : ℝ)
    (sem : List SimilarResult)
    (hvst : (vst.map (fun sm => sm.id)).Nodup)
    (hsem : VectorStore.findSimilarMemories embed vst content limit
      minSimilarity = .ok sem) :
    (sem.map (fun r => r.memory.id)).Nodup := by
  unfold VectorStore.findSimilarMemories at hsem
  cases hemb : embed content with
  | error e =>
    rw [hemb] at hsem
    cases hsem
    simp
  | ok q =>
    rw [hemb] at hsem
    dsimp only at hsem
    cases hscore : scoreAll q vst with
    | error e =>
      rw [hscore] at hsem
      cases hsem
      simp
    | ok scored =>
      rw [hscore] at hsem
      cases hsem
      rw [List.map_map]
      have hcomp : ((fun r : SimilarResult => r.memory.id) ∘
          (fun p : StoredMemory × ℝ =>
            ({ memory := projectStored p.1, similarity := p.2 } :
              SimilarResult))) = (fun p : StoredMemory × ℝ => p.1.id) := rfl
      rw [hcomp]
      have h1 : (scored.map (fun p => p.1.id)).Nodup := by
        have : scored.map (fun p => p.1.id) =
            (scored.map (fun p => p.1)).map (fun sm => sm.id) := by
          rw [List.map_map]
          rfl
        rw [this, scoreAll_map_fst q vst scored hscore]
        exact hvst
      have h2 : ((scored.filter
          (fun p => minSimilarity ≤ p.2)).map (fun p => p.1.id)).Nodup :=
        h1.sublist ((List.filter_sublist _).map _)
      have hperm : List.Perm
          (((scored.filter (fun p => minSimilarity ≤ p.2)).insertionSort
            sndGE).map (fun p => p.1.id))
          ((scored.filter (fun p => minSimilarity ≤ p.2)).map
            (fun p => p.1.id)) :=
        (List.perm_insertionSort sndGE _).map _
      have h3 : (((scored.filter (fun p => minSimilarity ≤ p.2)).insertionSort
          sndGE).map (fun p => p.1.id)).Nodup := hperm.nodup_iff.mpr h2
      exact h3.sublist ((List.take_sublist _ _).map _)

lemma bool_eq_of_iff {a b : Bool} (h : a = true ↔ b = true) : a = b := by
  cases a <;> cases b <;> simp_all

lemma relatedScored_eq_spec (mst : List Memory) (sem : List SimilarResult)
    (target : Memory) (id : String)
    (htc : (target.connections.map (fun cn => cn.targetId)).Nodup)
    (hts : ∀ cn ∈ target.connections, 0 ≤ cn.strength)
    (hs : ∀ m ∈ mst, ∀ cn ∈ m.connections, 0 ≤ cn.strength)
    (hsemnd : (sem.map (fun r => r.memory.id)).Nodup) :
    MemoryStore.relatedScored mst sem target id =
      (specExplicitIds mst target id).filterMap (fun c =>
        (mst.find? (fun m => m.id = c)).map
          (fun m => (m, specCombinedStrength mst sem target id c))) := by
  unfold MemoryStore.relatedScored
  rw [relatedFold_split]
  dsimp only
  rw [relatedIdsOf_eq_spec]
  congr 1
  funext c
  cases hfind : mst.find? (fun m => m.id = c) with
  | none => rfl
  | some memory =>
    dsimp only
    rw [explicit_strength_eq mst target id c htc hts hs,
      semantic_lookup_eq sem hsemnd c]
    rfl

lemma relatedAppended_eq_spec (mst : List Memory) (sem : List SimilarResult)
    (target : Memory) (id : String)
    (hsemnd : (sem.map (fun r => r.memory.id)).Nodup) :
    MemoryStore.relatedAppended mst sem target id =
      (sem.filter (fun r => ! specHasExplicitEdge mst target id r.memory.id)).map
        (fun r => r.memory) := by
  unfold MemoryStore.relatedAppended
  rw [relatedFold_split]
  dsimp only
  rw [relatedIdsOf_eq_spec]
  unfold MemoryStore.semMapOf
  rw [jsMapOfList_eq_self _ (by rw [semMapOf_keys]; exact hsemnd)]
  rw [foldl_push_filter, List.nil_append, List.filter_map, List.map_map]
  have hcomp2 : ((fun q : String × SimilarResult => q.2.memory) ∘
      (fun r => (r.memory.id, r))) = (fun r : SimilarResult => r.memory) := rfl
  rw [hcomp2]
  congr 1
  apply List.filter_congr
  intro r _
  show (! (specExplicitIds mst target id).contains r.memory.id) =
    ! specHasExplicitEdge mst target id r.memory.id
  congr 1
  apply bool_eq_of_iff
  rw [contains_iff_mem]
  exact mem_specExplicitIds_iff mst target id r.memory.id

/-- C1: under the data-model invariants (unique ids in the vector
store, at most one outgoing edge per target on the target memory,
edge strengths in `[0, 1]` — only nonnegativity is needed),
`getRelatedMemories` produces exactly the ranking the specification
describes: every explicit candidate (either edge direction) that
resolves in the collection is scored with
`max(explicit strength, semantic strength)` — explicit strength being
the maximum strength over edges between target and candidate in either
direction, semantic strength the candidate's similarity in the
`findSimilar` result (0 when absent) — the union is sorted once,
stably, in descending combined strength, and the semantic matches with
no explicit edge in either direction are appended afterwards in
descending similarity order. -/
theorem getRelated_matches_spec (embed : Embedder) (vst : List StoredMemory)
    (mst : List Memory) (id : String) (target : Memory)
    (sem : List SimilarResult)
    (hfind : mst.find? (fun m => m.id = id) = some target)
    (hsem : VectorStore.findSimilarMemories embed vst target.content = .ok sem)
    (hvst : (vst.map (fun sm => sm.id)).Nodup)
    (htc : (target.connections.map (fun cn => cn.targetId)).Nodup)
    (hs : ∀ m ∈ mst, ∀ cn ∈ m.connections, 0 ≤ cn.strength) :
    MemoryStore.getRelatedMemories embed vst mst id =
      .ok (findRelatedSpec mst sem target id) := by
  have hts : ∀ cn ∈ target.connections, 0 ≤ cn.strength :=
    hs target (List.mem_of_find?_eq_some hfind)
  have hsemnd : (sem.map (fun r => r.memory.id)).Nodup :=
    findSimilar_ids_nodup embed vst target.content 5 0.7 sem hvst hsem
  unfold MemoryStore.getRelatedMemories
  rw [hfind]
  dsimp only
  rw [hsem]
  unfold findRelatedSpec
  dsimp only
  congr 1
  rw [relatedAppended_eq_spec mst sem target id hsemnd]
  unfold MemoryStore.relatedRanked
  rw [relatedScored_eq_spec mst sem target id htc hts hs hsemnd]

/-- An embedder mapping every text to the vector `[1]`. -/
noncomputable def unitEmbed : Embedder := fun _ => .ok [1]

/-- A connection-free memory with id `t`, used by the C1 witness. -/
noncomputable def memT : Memory :=
  { id := "t", type := "fact", content := "tc", source := "s", timestamp := 1
    confidence := 1, connections := []
    metadata :=
      { workspace := none, thread := none, context := none, tags := some []
        timestamp := none } }

/-- Witness for C1 at a concrete one-memory collection over an empty
vector store. -/
theorem getRelated_matches_spec_witness :
    [memT].find? (fun m => m.id = "t") = some memT ∧
    VectorStore.findSimilarMemories unitEmbed [] memT.content = .ok [] ∧
    MemoryStore.getRelatedMemories unitEmbed [] [memT] "t" =
      .ok (findRelatedSpec [memT] [] memT "t") :=
  ⟨by simp [memT], rfl,
   getRelated_matches_spec unitEmbed [] [memT] "t" memT []
     (by simp [memT]) rfl (by simp) (by simp [memT]) (by simp [memT])⟩

/-! ## C10: duplicates and the appended set -/

/-- C10 as stated: for a resolved target and its semantic matches, the
output ids are pairwise distinct and the appended part consists of
exactly those semantic matches whose ids are not among the ids of the
sorted union part. -/
def relatedOutputClaim (embed : Embedder) (vst : List StoredMemory)
    (mst : List Memory) (id : String) : Prop :=
  ∀ target sem, mst.find? (fun m => m.id = id) = some target →
    VectorStore.findSimilarMemories embed vst target.content = .ok sem →
    ((MemoryStore.relatedRanked mst sem target id ++
       MemoryStore.relatedAppended mst sem target id).map (fun m => m.id)).Nodup ∧
    MemoryStore.relatedAppended mst sem target id =
      (sem.filter (fun r =>
        ! ((MemoryStore.relatedRanked mst sem target id).map
          (fun m => m.id)).contains r.memory.id)).map (fun r => r.memory)

lemma scoredIds_aux (mst : List Memory) (score : String → Memory → ℝ) :
    ∀ ids : List String,
      ((ids.filterMap (fun c =>
        match mst.find? (fun m => m.id = c) with
        | none => none
        | some memory => some (memory, score c memory))).map
          (fun p => p.1.id)) =
        ids.filter (fun c => (mst.find? (fun m => m.id = c)).isSome) := by
  intro ids
  induction ids with
  | nil => rfl
  | cons c cs ih =>
    rw [List.filterMap_cons, List.filter_cons]
    cases hf : mst.find? (fun m => m.id = c) with
    | none => simp [ih]
    | some m =>
      have hmc : m.id = c := by simpa using List.find?_some hf
      simp [ih, hmc]

lemma relatedScored_ids (mst : List Memory) (sem : List SimilarResult)
    (target : Memory) (id : String) :
    (MemoryStore.relatedScored mst sem target id).map (fun p => p.1.id) =
      (relatedIdsOf mst target id).filter
        (fun c => (mst.find? (fun m => m.id = c)).isSome) := by
  unfold MemoryStore.relatedScored
  rw [relatedFold_split]
  dsimp only
  exact scoredIds_aux mst _ _

lemma relatedRanked_ids_nodup (mst : List Memory) (sem : List SimilarResult)
    (target : Memory) (id : String) :
    ((MemoryStore.relatedRanked mst sem target id).map (fun m => m.id)).Nodup ∧
    ∀ a ∈ (MemoryStore.relatedRanked mst sem target id).map (fun m => m.id),
      a ∈ relatedIdsOf mst target id := by
  have h1 : (relatedIdsOf mst target id).Nodup := by
    rw [relatedIdsOf_eq_dedup]
    exact nodup_dedupFromSeen _ _
  have hperm : List.Perm
      (((MemoryStore.relatedScored mst sem target id).insertionSort
        sndGE).map (fun p => p.1.id))
      ((MemoryStore.relatedScored mst sem target id).map (fun p => p.1.id)) :=
    (List.perm_insertionSort sndGE _).map _
  have hmapeq : (MemoryStore.relatedRanked mst sem target id).map
      (fun m => m.id) =
      ((MemoryStore.relatedScored mst sem target id).insertionSort
        sndGE).map (fun p => p.1.id) := by
    unfold MemoryStore.relatedRanked
    rw [List.map_map]
    rfl
  constructor
  · rw [hmapeq]
    refine hperm.nodup_iff.mpr ?_
    rw [relatedScored_ids]
    exact h1.filter _
  · intro a ha
    rw [hmapeq] at ha
    have := hperm.mem_iff.mp ha
    rw [relatedScored_ids] at this
    exact (List.mem_filter.mp this).1

/-- C10 amended: under unique ids in the memory collection and the
vector store, the `getRelatedMemories` output contains each memory at
most once (the ranked union and the appended matches carry pairwise
distinct ids), and the appended part consists of exactly those
semantic matches whose ids have no explicit edge to or from the target
— the ids the discovery passes collected — rather than "ids not in the
sorted union", which differs when an explicitly-connected id does not
resolve in the memory collection. -/
theorem related_output_distinct_appended (embed : Embedder)
    (vst : List StoredMemory) (mst : List Memory) (id : String)
    (target : Memory) (sem : List SimilarResult)
    (_hmst : (mst.map (fun m => m.id)).Nodup)
    (hvst : (vst.map (fun sm => sm.id)).Nodup)
    (_hfind : mst.find? (fun m => m.id = id) = some target)
    (hsem : VectorStore.findSimilarMemories embed vst target.content = .ok sem) :
    ((MemoryStore.relatedRanked mst sem target id ++
       MemoryStore.relatedAppended mst sem target id).map (fun m => m.id)).Nodup ∧
    MemoryStore.relatedAppended mst sem target id =
      (sem.filter (fun r =>
        ! specHasExplicitEdge mst target id r.memory.id)).map
        (fun r => r.memory) := by
  have hsemnd : (sem.map (fun r => r.memory.id)).Nodup :=
    findSimilar_ids_nodup embed vst target.content 5 0.7 sem hvst hsem
  have happ := relatedAppended_eq_spec mst sem target id hsemnd
  refine ⟨?_, happ⟩
  rw [List.map_append]
  obtain ⟨hrnd, hrsub⟩ := relatedRanked_ids_nodup mst sem target id
  have handn : ((MemoryStore.relatedAppended mst sem target id).map
      (fun m => m.id)).Nodup := by
    rw [happ, List.map_map]
    have hcomp : ((fun m : Memory => m.id) ∘ (fun r : SimilarResult =>
        r.memory)) = (fun r : SimilarResult => r.memory.id) := rfl
    rw [hcomp]
    exact hsemnd.sublist ((List.filter_sublist _).map _)
  refine List.Nodup.append hrnd handn ?_
  intro a haR haA
  have haIds : a ∈ relatedIdsOf mst target id := hrsub a haR
  have haEdge : specHasExplicitEdge mst target id a = true := by
    rw [relatedIdsOf_eq_spec] at haIds
    exact (mem_specExplicitIds_iff mst target id a).mp haIds
  rw [happ, List.map_map] at haA
  rcases List.mem_map.mp haA with ⟨r, hr, hra⟩
  have hcond := (List.mem_filter.mp hr).2
  have : specHasExplicitEdge mst target id r.memory.id = false := by
    simpa using hcond
  rw [show r.memory.id = a from hra] at this
  rw [haEdge] at this
  cases this

/-- Witness for the amended C10 at the concrete one-memory state. -/
theorem related_output_distinct_appended_witness :
    ([memT].map (fun m => m.id)).Nodup ∧
    MemoryStore.relatedAppended [memT] [] memT "t" =
      (([] : List SimilarResult).filter (fun r =>
        ! specHasExplicitEdge [memT] memT "t" r.memory.id)).map
        (fun r => r.memory) :=
  ⟨by simp [memT],
   (related_output_distinct_appended unitEmbed [] [memT] "t" memT []
     (by simp [memT]) (by simp) (by simp [memT]) rfl).2⟩

/-- A memory with id `t` holding one (dangling) edge to id `x`. -/
noncomputable def memTX : Memory :=
  { id := "t", type := "fact", content := "tc", source := "s", timestamp := 1
    confidence := 1
    connections := [{ type := "related_to", targetId := "x", strength := 0.5
                      description := none }]
    metadata :=
      { workspace := none, thread := none, context := none, tags := some []
        timestamp := none } }

/-- A stored vector with id `x` whose id is absent from the memory
collection. -/
noncomputable def storedX : StoredMemory :=
  { id := "x"
    embedding := [1]
    metadata :=
      { type := "fact", source := "s", confidence := 1, workspace := none
        thread := none, timestamp := 2, tags := [] }
    content := "xc" }

/-- The semantic match that `findSimilar` produces for `storedX`. -/
noncomputable def semX : SimilarResult :=
  { memory := projectStored storedX, similarity := 1 }

lemma cosSim_one : cosineSimilarity [(1 : ℝ)] [1] = .ok 1 := by
  rw [cosineSimilarity_eq_len _ _ rfl]
  have hmag : magnitude [(1 : ℝ)] = 1 := by
    unfold magnitude
    have h1 : (([(1 : ℝ)].map (fun x => x * x)).sum) = 1 := by norm_num
    rw [h1, Real.sqrt_one]
  rw [hmag, if_neg (by norm_num)]
  have hdot : specDot [(1 : ℝ)] [1] = 1 := by
    unfold specDot
    norm_num
  rw [hdot]
  norm_num

lemma scoreX : scoreAll [1] [storedX] = .ok [(storedX, 1)] := by
  unfold scoreAll
  rw [show storedX.embedding = [(1 : ℝ)] from rfl, cosSim_one]
  rfl

lemma semEvalX : VectorStore.findSimilarMemories unitEmbed [storedX]
    memTX.content = .ok [semX] := by
  unfold VectorStore.findSimilarMemories
  rw [show unitEmbed memTX.content = Except.ok [(1 : ℝ)] from rfl]
  dsimp only
  rw [scoreX]
  dsimp only
  have hfil : ([(storedX, (1 : ℝ))].filter (fun p => (0.7 : ℝ) ≤ p.2)) =
      [(storedX, 1)] := by
    rw [List.filter_cons]
    rw [if_pos (by norm_num)]
    rfl
  rw [hfil]
  rfl

lemma relatedIds_cx : relatedIdsOf [memTX] memTX "t" = ["x"] := by
  rw [relatedIdsOf_eq_dedup]
  have h1 : memTX.connections.map (fun c => c.targetId) = ["x"] := by
    simp [memTX]
  have h2 : scanIdList [memTX] "t" = [] := by
    unfold scanIdList
    simp [memTX]
  rw [h1, h2, List.append_nil]
  unfold dedupFirst
  rw [dedupFromSeen_cons, if_neg (by simp), dedupFromSeen_nil]

lemma ranked_cx : MemoryStore.relatedRanked [memTX] [semX] memTX "t" = [] := by
  unfold MemoryStore.relatedRanked MemoryStore.relatedScored
  rw [relatedFold_split]
  dsimp only
  rw [relatedIds_cx]
  have hfind : [memTX].find? (fun m => m.id = "x") = none := by
    simp [memTX]
  rw [List.filterMap_cons, hfind]
  rfl

lemma appended_cx : MemoryStore.relatedAppended [memTX] [semX] memTX "t" = [] := by
  unfold MemoryStore.relatedAppended
  rw [relatedFold_split]
  dsimp only
  rw [relatedIds_cx]
  have hmap : MemoryStore.semMapOf [semX] = [("x", semX)] := by
    unfold MemoryStore.semMapOf jsMapOfList
    rfl
  rw [hmap]
  rw [List.foldl_cons, List.foldl_nil]
  rw [if_pos (by simp)]

/-- Counterexample for C10: memory ids are unique, but the claim's
description of the appended part fails.  The target `t` holds an edge
to the id `x`, which is absent from the memory collection yet present
in the vector store and semantically similar; `x` is discovered by the
explicit pass (so it is not appended) but dropped from the sorted
union (it does not resolve), so the semantic match `x` is not in the
union and still not appended. -/
theorem related_output_claim_false :
    ([memTX].map (fun m => m.id)).Nodup ∧
    ¬ relatedOutputClaim unitEmbed [storedX] [memTX] "t" := by
  refine ⟨by simp [memTX], fun h => ?_⟩
  obtain ⟨-, happ⟩ := h memTX [semX] (by simp [memTX]) semEvalX
  rw [appended_cx, ranked_cx] at happ
  simp [semX] at happ

end Mycelium
